import Mathlib

/-!
Verification model of the slab-backed container allocator in
src/include/slab_containers.h (class mempool::slab_allocator and the
slab_list / slab_vector wrappers).

The allocator state is embedded shallowly: slabs are identified by numeric
ids, each slab records whether it is the in-stack (inline) slab, its slot
capacity (slabSize) and its current number of free slots (freeSlots).  The
per-slab intrusive free list of slots is represented by the freeSlots count
(the C++ code keeps the list and the count in sync; the claims under study
only observe the count, membership of slabs in the free-slab list, and the
global counters).  The doubly-linked list of slabs with free slots
(freeSlabHeads) is represented as a list of slab ids in list order, head
first.  C++ assertions are modelled as Option failures where a claim
depends on them (allocate), and mempool out-of-memory is out of scope.
-/

set_option autoImplicit false

namespace Slabs

/-- Mempool per-pool counters.  Modelled from the spec: mempool.h is not part
of the sources under study; section 6 of the spec lists the four hooks
(slab_new, slab_delete, slab_item_allocate, slab_item_free) and the
counters free_items, inuse_items, slabs.  A new slab is accounted as fully
allocated (the allocator immediately frees every slot of a new slab, which
the code comments describe as pretending the slab was completely allocated
before), so slab_new adds its slot count to both allocated and in-use
items, and slab_delete removes a fully free slab. -/
structure Pool where
  slabs : Nat
  allocatedItems : Nat
  freeItems : Nat
  inuseItems : Nat
  deriving DecidableEq

/-- Modelled from the spec: hook called when a slab of count slots is
created (inline notification or heap slab). -/
def Pool.slabNew (p : Pool) (count : Nat) : Pool :=
  { slabs := p.slabs + 1
    allocatedItems := p.allocatedItems + count
    freeItems := p.freeItems
    inuseItems := p.inuseItems + count }

/-- Modelled from the spec: hook called when a slab whose count slots are
all free is released. -/
def Pool.slabDelete (p : Pool) (count : Nat) : Pool :=
  { slabs := p.slabs - 1
    allocatedItems := p.allocatedItems - count
    freeItems := p.freeItems - count
    inuseItems := p.inuseItems }

/-- Modelled from the spec: per-slot handout notification. -/
def Pool.itemAllocate (p : Pool) : Pool :=
  { p with inuseItems := p.inuseItems + 1, freeItems := p.freeItems - 1 }

/-- Modelled from the spec: per-slot return notification. -/
def Pool.itemFree (p : Pool) : Pool :=
  { p with inuseItems := p.inuseItems - 1, freeItems := p.freeItems + 1 }

/-- The all-zero pool, the state of a fresh pool before any container is
constructed (the unit tests check all counters are zero there). -/
def pool0 : Pool := { slabs := 0, allocatedItems := 0, freeItems := 0, inuseItems := 0 }

/-- One slab (struct slab_t): its identity, whether it is the in-stack slab
embedded in the allocator (stackSlab), its slot capacity (slabSize) and the
number of currently free slots (freeSlots, the length of its intrusive slot
free list). -/
structure Slab where
  id : Nat
  isStack : Bool
  size : Nat
  freeSlots : Nat
  deriving DecidableEq

/-- State of one slab_allocator<pool_ix,T,stackSize,heapSize>: the template
parameters, the existing slabs (the in-stack slab plus any live heap
slabs), the free-slab list (freeSlabHeads, as the list of slab ids in
order, head first), and the two debug counters. -/
structure AllocState where
  stackSize : Nat
  heapSize : Nat
  slabs : List Slab
  freeList : List Nat
  freeSlotCount : Nat
  allocSlotCount : Nat
  nextId : Nat
  deriving DecidableEq

/-- Look a slab up by id (follows a slot's back pointer to its slab). -/
def findSlab : List Slab → Nat → Option Slab
  | [], _ => none
  | s :: rest, i => if s.id = i then some s else findSlab rest i

/-- Apply an update to the slab with the given id. -/
def updSlab : List Slab → Nat → (Slab → Slab) → List Slab
  | [], _, _ => []
  | s :: rest, i, f => (if s.id = i then f s else s) :: updSlab rest i f

/-- Remove the slab with the given id (the slab's storage is returned to
the mempool). -/
def removeSlab : List Slab → Nat → List Slab
  | [], _ => []
  | s :: rest, i => if s.id = i then removeSlab rest i else s :: removeSlab rest i

/-- Unlink one id from the free-slab list. -/
def eraseId : List Nat → Nat → List Nat
  | [], _ => []
  | j :: rest, i => if j = i then rest else j :: eraseId rest i

/-- Number of occurrences of an id in a list of ids. -/
def countId : List Nat → Nat → Nat
  | [], _ => 0
  | j :: rest, i => (if j = i then 1 else 0) + countId rest i

/-- Sum of the freeSlots fields of a list of slabs. -/
def sumFree (l : List Slab) : Nat := (l.map (fun s => s.freeSlots)).sum

/-- Increase a slab's free-slot count by n (push n slots onto its free
list). -/
def addFree (n : Nat) (t : Slab) : Slab := { t with freeSlots := t.freeSlots + n }

/-- Pop one slot off a slab's free list. -/
def subOneFree (t : Slab) : Slab := { t with freeSlots := t.freeSlots - 1 }

/-- Translation of slab_allocator::freeslot(slot_t, bool freeEmpty).  The
slot's back pointer is represented by the id of its slab.  The slot is
pushed onto the slab's free list (freeSlots + 1), the allocator free count
and the pool counters are updated, the slab is linked at the head of the
free-slab list when its freeSlots went 0 to 1, and when freeEmpty is set
and the slab became entirely free and is not the in-stack slab, the slab is
unlinked and released.  A missing id leaves the state unchanged (the C++
code would dereference garbage; verified runs only pass live ids). -/
def freeslot (a : AllocState) (p : Pool) (i : Nat) (freeEmpty : Bool) : AllocState × Pool :=
  match findSlab a.slabs i with
  | none => (a, p)
  | some s =>
    let fs := s.freeSlots + 1
    let a1 : AllocState := { a with
      slabs := updSlab a.slabs i (addFree 1)
      freeSlotCount := a.freeSlotCount + 1 }
    let p1 := p.itemFree
    let a2 : AllocState := if fs = 1 then { a1 with freeList := i :: a1.freeList } else a1
    if freeEmpty ∧ fs = s.size ∧ s.isStack = false then
      ({ a2 with
          slabs := removeSlab a2.slabs i
          freeList := eraseId a2.freeList i
          freeSlotCount := a2.freeSlotCount - s.size },
       p1.slabDelete s.size)
    else (a2, p1)

/-- Translation of the loop body of slab_allocator::initSlab: the slab
starts with freeSlots = 0 and each of its n slots is handed to
freeslot(slot, false) in turn. -/
def initSlabLoop : AllocState → Pool → Nat → Nat → AllocState × Pool
  | a, p, _, 0 => (a, p)
  | a, p, i, n + 1 =>
    let r := freeslot a p i false
    initSlabLoop r.1 r.2 i n

/-- Translation of slab_allocator::addSlab(slabSize): obtain a fresh slab
from the mempool (slab_new with heap = true) and run initSlab on it.  Note
that neither addSlab nor initSlab touches allocSlotCount. -/
def addSlab (a : AllocState) (p : Pool) (c : Nat) : AllocState × Pool :=
  let i := a.nextId
  let p1 := p.slabNew c
  let a1 : AllocState := { a with
    slabs := { id := i, isStack := false, size := c, freeSlots := 0 } :: a.slabs
    nextId := i + 1 }
  initSlabLoop a1 p1 i c

/-- Translation of slab_allocator::allocslot: if the free-slab list is
empty, addSlab(heapSize) first; then take the first slab of the list, pop
one slot off its free list, unlink the slab when its freeSlots reaches 0,
decrement the allocator free count and notify the pool.  The returned Nat
is the id of the slab the slot lives in (the slot's back pointer).  none
models the failed assert freeSlots > 0 and the undefined behaviour of an
empty list after addSlab (possible only when heapSize = 0). -/
def allocslot (a : AllocState) (p : Pool) : Option (AllocState × Pool × Nat) :=
  let r := if a.freeList = [] then addSlab a p a.heapSize else (a, p)
  let a1 := r.1
  let p1 := r.2
  match a1.freeList with
  | [] => none
  | i :: rest =>
    match findSlab a1.slabs i with
    | none => none
    | some s =>
      if s.freeSlots = 0 then none
      else
        let a2 : AllocState := { a1 with
          slabs := updSlab a1.slabs i subOneFree
          freeList := if s.freeSlots - 1 = 0 then rest else a1.freeList
          freeSlotCount := a1.freeSlotCount - 1 }
        some (a2, p1.itemAllocate, i)

/-- Translation of slab_allocator::allocate(cnt): asserts cnt == 1 (modelled
as failure) and hands out one slot. -/
def allocate (a : AllocState) (p : Pool) (cnt : Nat) : Option (AllocState × Pool × Nat) :=
  if cnt = 1 then allocslot a p else none

/-- Translation of slab_allocator::deallocate: recover the slot's slab and
run freeslot with freeEmpty = true. -/
def deallocate (a : AllocState) (p : Pool) (i : Nat) : AllocState × Pool :=
  freeslot a p i true

/-- Translation of slab_allocator::_reserve (and the public reserve that
forwards to it): a single addSlab of the shortfall when the free count is
below the request, otherwise nothing. -/
def reserveOp (a : AllocState) (p : Pool) (n : Nat) : AllocState × Pool :=
  if a.freeSlotCount < n then addSlab a p (n - a.freeSlotCount) else (a, p)

/-- Translation of the slab_allocator constructor: counters start at
freeSlotCount = 0 and allocSlotCount = stackSize, the free-slab list is
empty, the pool is notified of the inline slab (slab_new with heap =
false), and initSlab runs on the in-stack slab (id 0). -/
def mkAllocator (ss hs : Nat) (p : Pool) : AllocState × Pool :=
  let p1 := p.slabNew ss
  let a : AllocState := {
    stackSize := ss
    heapSize := hs
    slabs := [{ id := 0, isStack := true, size := ss, freeSlots := 0 }]
    freeList := []
    freeSlotCount := 0
    allocSlotCount := ss
    nextId := 1 }
  initSlabLoop a p1 0 ss

/-- One live list node: its stored value, the id of the slab its slot lives
in (the slot's back pointer), and the identity of the allocator that handed
the slot out (used to state the no-node-escape property). -/
structure SNode where
  val : Nat
  slab : Nat
  owner : Nat
  deriving DecidableEq

/-- A slab_list<node,stackCount,heapCount>: an identity for its embedded
allocator, the allocator state, and its elements in list order. -/
structure SList where
  ident : Nat
  alloc : AllocState
  elems : List SNode
  deriving DecidableEq

/-- List insert before position k (std::list::insert with a valid
iterator): one node is allocated from this list's own allocator. -/
def insertAt (l : SList) (p : Pool) (k : Nat) (v : Nat) : Option (SList × Pool) :=
  match allocslot l.alloc p with
  | none => none
  | some r =>
    some ({ l with
            alloc := r.1
            elems := l.elems.take k ++ { val := v, slab := r.2.2, owner := l.ident } :: l.elems.drop k },
          r.2.1)

/-- List push_back: allocate a node from this list's own allocator and
append it. -/
def pushBack (l : SList) (p : Pool) (v : Nat) : Option (SList × Pool) :=
  match allocslot l.alloc p with
  | none => none
  | some r =>
    some ({ l with
            alloc := r.1
            elems := l.elems ++ [{ val := v, slab := r.2.2, owner := l.ident }] },
          r.2.1)

/-- Erase the first element (erase(begin())): the node is handed back to
this list's own allocator via deallocate. -/
def eraseFirst (l : SList) (p : Pool) : SList × Pool :=
  match l.elems with
  | [] => (l, p)
  | n :: rest =>
    let r := deallocate l.alloc p n.slab
    ({ l with alloc := r.1, elems := rest }, r.2)

/-- Translation of slab_list::splice(pos, other, first, last) applied to
the full range [other.begin(), other.end()): while the source is not
exhausted, insert-copy the source front into this list at pos (pos then
advances past the inserted node, as std::next(insert(pos, *first))), and
erase the front from the source.  The loop is driven by the source range
captured at entry (first = other.begin(), last = other.end()); since every
iteration erases exactly the source front, the range is the entry value of
other's element list, passed here as the recursion argument. -/
def spliceLoop : SList → SList → Pool → Nat → List SNode → Option (SList × SList × Pool)
  | c, b, p, _, [] => some (c, b, p)
  | c, b, p, pos, n :: rest =>
    match insertAt c p pos n.val with
    | none => none
    | some cp =>
      let bp := eraseFirst b cp.2
      spliceLoop cp.1 bp.1 bp.2 (pos + 1) rest

/-- Full-range splice: c.splice(pos, b, b.begin(), b.end()). -/
def spliceAll (c : SList) (b : SList) (p : Pool) (pos : Nat) : Option (SList × SList × Pool) :=
  spliceLoop c b p pos b.elems

/-- Translation of the first loop of slab_list::swap: while the other list
is not exhausted, push_back its front element onto this list and erase it
from the other list.  The returned trace records the pool after each
primitive container operation of an iteration (first the pool after the
push_back, then the pool after the erase), which is what the transient
inuse_items claim quantifies over.  slab_list::swap is this loop followed
by a second loop over the range [mfirst, mlast) captured from this list
before the first loop ran; the claim under study swaps into an empty list,
for which that captured range is empty and the second loop runs zero
times, so swap coincides with this first loop. -/
def swapLoop : SList → SList → Pool → List SNode →
    Option (SList × SList × Pool × List (Pool × Pool))
  | c, b, p, [] => some (c, b, p, [])
  | c, b, p, n :: rest =>
    match pushBack c p n.val with
    | none => none
    | some cp =>
      let bp := eraseFirst b cp.2
      match swapLoop cp.1 bp.1 bp.2 rest with
      | none => none
      | some r => some (r.1, r.2.1, r.2.2.1, (cp.2, bp.2) :: r.2.2.2)

/-- The first loop of slab_list::swap, over the range [o.begin(), o.end())
captured at entry. -/
def swapLoop1 (c : SList) (b : SList) (p : Pool) :
    Option (SList × SList × Pool × List (Pool × Pool)) :=
  swapLoop c b p b.elems

/-- Translation of slab_list::swap(o) for the case the claim quantifies
over: this list is empty, so the captured range of the second loop is
empty and the swap is exactly the first loop. -/
def swapFromEmpty (c : SList) (b : SList) (p : Pool) :
    Option (SList × SList × Pool × List (Pool × Pool)) :=
  swapLoop1 c b p

/-- Erase every element front to back, driven by the element range at
entry (each step erases exactly the front). -/
def clearLoop : SList → Pool → List SNode → SList × Pool
  | l, p, [] => (l, p)
  | l, p, _ :: rest =>
    let r := eraseFirst l p
    clearLoop r.1 r.2 rest

/-- Translation of std::list::clear: every node is destroyed and its slot
deallocated. -/
def clearList (l : SList) (p : Pool) : SList × Pool :=
  clearLoop l p l.elems

/-- Translation of slab_list::copy(o) as run by operator= when the source
is the same object (self assignment, L = L): this->clear() runs first, and
the subsequent range-for over o traverses the same, now cleared, list, so
it pushes back nothing. -/
def listSelfAssign (l : SList) (p : Pool) : SList × Pool :=
  let r := clearList l p
  r

/-- Element state of a slab_vector<value,stackCount> for the self-assignment
claim: its elements and its reserved capacity. -/
structure SVec where
  elems : List Nat
  cap : Nat
  deriving DecidableEq

/-- Translation of slab_vector::operator=(rhs) when rhs is the same object
(self assignment, V = V): reserve(rhs.size()), then clear(), then a
range-for over rhs, which now traverses the cleared vector and pushes back
nothing. -/
def vecSelfAssign (v : SVec) : SVec :=
  let v1 : SVec := { v with cap := max v.cap v.elems.length }
  let v2 : SVec := { v1 with elems := [] }
  v2

/-- A pointer handed out by slab_vector_allocator: either the single inline
array stackSlot embedded in the allocator, or a fresh heap block. -/
inductive VPtr where
  | stackSlot : VPtr
  | heapBlock (id : Nat) : VPtr
  deriving DecidableEq

/-- State of a slab_vector_allocator<pool_ix,T,stackSize>: the allocator
itself carries no bookkeeping beyond the inline array; nextId names fresh
heap blocks. -/
structure VAllocState where
  stackSize : Nat
  nextId : Nat
  deriving DecidableEq

/-- Translation of slab_vector_allocator::allocate(cnt): a request of at
most stackSize elements returns the inline array (unconditionally, with no
check that the inline array is free), anything larger gets a fresh block
from the mempool. -/
def vallocate (a : VAllocState) (p : Pool) (cnt : Nat) : VAllocState × Pool × VPtr :=
  if cnt ≤ a.stackSize then (a, p, VPtr.stackSlot)
  else ({ a with nextId := a.nextId + 1 }, p.slabNew cnt, VPtr.heapBlock a.nextId)

/-- Translation of slab_vector_allocator::deallocate(p, s): a no-op when
the pointer is the inline array, otherwise the block is returned to the
mempool. -/
def vdeallocate (a : VAllocState) (p : Pool) (ptr : VPtr) (s : Nat) : Pool :=
  match ptr with
  | VPtr.stackSlot => p
  | VPtr.heapBlock _ => p.slabDelete s

/-- List model of a slab_list built freshly: a new allocator and no
elements. -/
def mkList (ident ss hs : Nat) (p : Pool) : SList × Pool :=
  let r := mkAllocator ss hs p
  ({ ident := ident, alloc := r.1, elems := [] }, r.2)

/-- Allocator well-formedness, indexed by the multiset (as a list) of slab
ids of the slots currently handed out.  These are the structural facts the
C++ code maintains; they are proved invariant under allocate, deallocate
and reserve. -/
structure AInv (a : AllocState) (out : List Nat) : Prop where
  hs_pos : 1 ≤ a.heapSize
  ids_nodup : (a.slabs.map (fun s => s.id)).Nodup
  ids_lt : ∀ s ∈ a.slabs, s.id < a.nextId
  stack_iff : ∀ s ∈ a.slabs, (s.isStack = true ↔ s.id = 0)
  stack_mem : ∃ s, s ∈ a.slabs ∧ s.id = 0
  flist_nodup : a.freeList.Nodup
  flist_mem : ∀ i ∈ a.freeList, ∃ s, s ∈ a.slabs ∧ s.id = i
  mem_iff : ∀ s ∈ a.slabs, (s.id ∈ a.freeList ↔ 1 ≤ s.freeSlots)
  fsc_sum : a.freeSlotCount = sumFree a.slabs
  live_eq : ∀ s ∈ a.slabs, s.size = s.freeSlots + countId out s.id
  out_mem : ∀ i, 1 ≤ countId out i → ∃ s, s ∈ a.slabs ∧ s.id = i

/-- No-reserve side condition: every heap slab still holds at least one
live slot.  This holds along runs that never call reserve, because a heap
slab is created only inside allocslot, which immediately hands a slot out
of it, and is released as soon as its last live slot is freed. -/
def NR (a : AllocState) (out : List Nat) : Prop :=
  ∀ s ∈ a.slabs, s.isStack = false → 1 ≤ countId out s.id

/-- Reachability of an allocator state by any sequence of allocate,
deallocate and (when allowR is set) reserve operations, starting from a
freshly constructed allocator on a fresh pool.  out tracks the slab ids of
the slots currently handed out; deallocate may only return a slot that was
handed out. -/
inductive Reach : Bool → Nat → Nat → AllocState → Pool → List Nat → Prop where
  | init (allowR : Bool) (ss hs : Nat) (h : 1 ≤ hs) :
      Reach allowR ss hs (mkAllocator ss hs pool0).1 (mkAllocator ss hs pool0).2 []
  | alloc {allowR : Bool} {ss hs : Nat} {a : AllocState} {p : Pool} {out : List Nat}
      {a1 : AllocState} {p1 : Pool} {i : Nat} :
      Reach allowR ss hs a p out → allocate a p 1 = some (a1, p1, i) →
      Reach allowR ss hs a1 p1 (i :: out)
  | dealloc {allowR : Bool} {ss hs : Nat} {a : AllocState} {p : Pool} {out : List Nat}
      {a1 : AllocState} {p1 : Pool} {i : Nat} :
      Reach allowR ss hs a p out → 1 ≤ countId out i → deallocate a p i = (a1, p1) →
      Reach allowR ss hs a1 p1 (eraseId out i)
  | reserve {ss hs : Nat} {a : AllocState} {p : Pool} {out : List Nat}
      {a1 : AllocState} {p1 : Pool} {n : Nat} :
      Reach true ss hs a p out → reserveOp a p n = (a1, p1) →
      Reach true ss hs a1 p1 out

/-- Slab ids of the slots a list's live nodes occupy (the outstanding
multiset for its embedded allocator). -/
def outOf (l : SList) : List Nat := l.elems.map (fun x => x.slab)

/-- Deallocate every outstanding slot in order: the allocator-level effect
of container.clear(), which destroys each node and hands its slot back via
deallocate. -/
def clearAll : AllocState → Pool → List Nat → AllocState × Pool
  | a, p, [] => (a, p)
  | a, p, i :: rest =>
    let r := deallocate a p i
    clearAll r.1 r.2 rest

theorem findSlab_mem {l : List Slab} {i : Nat} {s : Slab} (h : findSlab l i = some s) :
    s ∈ l ∧ s.id = i := by
  induction l with
  | nil => simp [findSlab] at h
  | cons t rest ih =>
    by_cases ht : t.id = i
    · rw [findSlab, if_pos ht] at h
      injection h with heq
      subst heq
      exact ⟨List.mem_cons_self t rest, ht⟩
    · rw [findSlab, if_neg ht] at h
      exact ⟨List.mem_cons_of_mem t (ih h).1, (ih h).2⟩

theorem findSlab_of_mem {l : List Slab} {i : Nat} {s : Slab}
    (nd : (l.map (fun s => s.id)).Nodup) (hs : s ∈ l) (hid : s.id = i) :
    findSlab l i = some s := by
  induction l with
  | nil => cases hs
  | cons t rest ih =>
    rw [List.map_cons, List.nodup_cons] at nd
    rcases List.mem_cons.mp hs with rfl | hmem
    · rw [findSlab, if_pos hid]
    · by_cases ht : t.id = i
      · exfalso
        exact nd.1 (by rw [ht, ← hid]; exact List.mem_map_of_mem (fun s => s.id) hmem)
      · rw [findSlab, if_neg ht]
        exact ih nd.2 hmem

theorem findSlab_eq_none {l : List Slab} {i : Nat} (h : ∀ s ∈ l, s.id ≠ i) :
    findSlab l i = none := by
  induction l with
  | nil => rfl
  | cons t rest ih =>
    rw [findSlab, if_neg (h t (List.mem_cons_self t rest))]
    exact ih (fun s hs => h s (List.mem_cons_of_mem t hs))

theorem updSlab_eq_of_ne {l : List Slab} {i : Nat} {f : Slab → Slab}
    (h : ∀ s ∈ l, s.id ≠ i) : updSlab l i f = l := by
  induction l with
  | nil => rfl
  | cons t rest ih =>
    rw [updSlab, if_neg (h t (List.mem_cons_self t rest)),
      ih (fun s hs => h s (List.mem_cons_of_mem t hs))]

theorem mem_updSlab {l : List Slab} {i : Nat} {f : Slab → Slab} {u : Slab} :
    u ∈ updSlab l i f ↔ ∃ s, s ∈ l ∧ u = (if s.id = i then f s else s) := by
  induction l with
  | nil => simp [updSlab]
  | cons t rest ih =>
    rw [updSlab]
    constructor
    · intro hu
      rcases List.mem_cons.mp hu with h | h
      · exact ⟨t, List.mem_cons_self t rest, h⟩
      · rcases ih.mp h with ⟨s, hs, hrep⟩
        exact ⟨s, List.mem_cons_of_mem t hs, hrep⟩
    · rintro ⟨s, hs, rfl⟩
      rcases List.mem_cons.mp hs with rfl | h
      · exact List.mem_cons_self _ _
      · exact List.mem_cons_of_mem _ (ih.mpr ⟨s, h, rfl⟩)

theorem mem_updSlab_of_mem {l : List Slab} {i : Nat} {f : Slab → Slab} {s : Slab}
    (hs : s ∈ l) : (if s.id = i then f s else s) ∈ updSlab l i f :=
  mem_updSlab.mpr ⟨s, hs, rfl⟩

theorem ids_updSlab {l : List Slab} {i : Nat} {f : Slab → Slab}
    (hf : ∀ t, (f t).id = t.id) :
    (updSlab l i f).map (fun s => s.id) = l.map (fun s => s.id) := by
  induction l with
  | nil => rfl
  | cons t rest ih =>
    rw [updSlab, List.map_cons, List.map_cons, ih]
    by_cases ht : t.id = i
    · rw [if_pos ht, hf]
    · rw [if_neg ht]

theorem findSlab_updSlab_self {l : List Slab} {i : Nat} {f : Slab → Slab} {s : Slab}
    (hf : ∀ t, (f t).id = t.id) (h : findSlab l i = some s) :
    findSlab (updSlab l i f) i = some (f s) := by
  induction l with
  | nil => simp [findSlab] at h
  | cons t rest ih =>
    by_cases ht : t.id = i
    · rw [findSlab, if_pos ht] at h
      injection h with heq
      subst heq
      rw [updSlab, if_pos ht, findSlab, if_pos (by rw [hf]; exact ht)]
    · rw [findSlab, if_neg ht] at h
      rw [updSlab, if_neg ht, findSlab, if_neg ht]
      exact ih h

theorem findSlab_updSlab_ne {l : List Slab} {i j : Nat} {f : Slab → Slab}
    (hf : ∀ t, (f t).id = t.id) (hne : j ≠ i) :
    findSlab (updSlab l i f) j = findSlab l j := by
  induction l with
  | nil => rfl
  | cons t rest ih =>
    by_cases ht : t.id = i
    · have : (f t).id ≠ j := by rw [hf, ht]; exact fun h => hne h.symm
      rw [updSlab, if_pos ht, findSlab, if_neg this, findSlab,
        if_neg (by rw [ht]; exact fun h => hne h.symm), ih]
    · rw [updSlab, if_neg ht, findSlab, findSlab]
      by_cases htj : t.id = j
      · rw [if_pos htj, if_pos htj]
      · rw [if_neg htj, if_neg htj, ih]

theorem updSlab_congr {l : List Slab} {i : Nat} {f g : Slab → Slab}
    (h : ∀ t, f t = g t) : updSlab l i f = updSlab l i g := by
  induction l with
  | nil => rfl
  | cons t rest ih =>
    rw [updSlab, updSlab, ih]
    by_cases ht : t.id = i
    · rw [if_pos ht, if_pos ht, h]
    · rw [if_neg ht, if_neg ht]

theorem updSlab_updSlab {l : List Slab} {i : Nat} {f g : Slab → Slab}
    (hf : ∀ t, (f t).id = t.id) :
    updSlab (updSlab l i f) i g = updSlab l i (fun t => g (f t)) := by
  induction l with
  | nil => rfl
  | cons t rest ih =>
    rw [updSlab, updSlab, updSlab, ih]
    by_cases ht : t.id = i
    · rw [if_pos ht, if_pos ht, if_pos (by rw [hf]; exact ht)]
    · rw [if_neg ht, if_neg ht, if_neg ht]

theorem removeSlab_sublist (l : List Slab) (i : Nat) : (removeSlab l i).Sublist l := by
  induction l with
  | nil => exact List.Sublist.refl []
  | cons t rest ih =>
    rw [removeSlab]
    by_cases ht : t.id = i
    · rw [if_pos ht]
      exact ih.cons t
    · rw [if_neg ht]
      exact ih.cons₂ t

theorem mem_removeSlab {l : List Slab} {i : Nat} {u : Slab} :
    u ∈ removeSlab l i ↔ u ∈ l ∧ u.id ≠ i := by
  induction l with
  | nil => simp [removeSlab]
  | cons t rest ih =>
    rw [removeSlab]
    by_cases ht : t.id = i
    · rw [if_pos ht, ih]
      constructor
      · rintro ⟨h1, h2⟩
        exact ⟨List.mem_cons_of_mem t h1, h2⟩
      · rintro ⟨h1, h2⟩
        rcases List.mem_cons.mp h1 with rfl | h
        · exact absurd ht h2
        · exact ⟨h, h2⟩
    · rw [if_neg ht]
      constructor
      · intro hu
        rcases List.mem_cons.mp hu with rfl | h
        · exact ⟨List.mem_cons_self _ _, ht⟩
        · exact ⟨List.mem_cons_of_mem t (ih.mp h).1, (ih.mp h).2⟩
      · rintro ⟨h1, h2⟩
        rcases List.mem_cons.mp h1 with rfl | h
        · exact List.mem_cons_self _ _
        · exact List.mem_cons_of_mem _ (ih.mpr ⟨h, h2⟩)

theorem removeSlab_eq_of_ne {l : List Slab} {i : Nat}
    (h : ∀ s ∈ l, s.id ≠ i) : removeSlab l i = l := by
  induction l with
  | nil => rfl
  | cons t rest ih =>
    rw [removeSlab, if_neg (h t (List.mem_cons_self t rest)),
      ih (fun s hs => h s (List.mem_cons_of_mem t hs))]

theorem removeSlab_updSlab {l : List Slab} {i : Nat} {f : Slab → Slab}
    (hf : ∀ t, (f t).id = t.id) :
    removeSlab (updSlab l i f) i = removeSlab l i := by
  induction l with
  | nil => rfl
  | cons t rest ih =>
    rw [updSlab, removeSlab, removeSlab]
    by_cases ht : t.id = i
    · rw [if_pos ht, if_pos (by rw [hf]; exact ht), if_pos ht, ih]
    · rw [if_neg ht, if_neg ht, if_neg ht, ih]

theorem findSlab_removeSlab_ne {l : List Slab} {i j : Nat} (hne : j ≠ i) :
    findSlab (removeSlab l i) j = findSlab l j := by
  induction l with
  | nil => rfl
  | cons t rest ih =>
    rw [removeSlab, findSlab]
    by_cases ht : t.id = i
    · rw [if_pos ht, if_neg (by rw [ht]; exact fun h => hne h.symm), ih]
    · rw [if_neg ht, findSlab]
      by_cases htj : t.id = j
      · rw [if_pos htj, if_pos htj]
      · rw [if_neg htj, if_neg htj, ih]

theorem eraseId_sublist (l : List Nat) (i : Nat) : (eraseId l i).Sublist l := by
  induction l with
  | nil => exact List.Sublist.refl []
  | cons j rest ih =>
    rw [eraseId]
    by_cases hj : j = i
    · rw [if_pos hj]
      exact (List.Sublist.refl rest).cons j
    · rw [if_neg hj]
      exact ih.cons₂ j

theorem mem_eraseId_of_ne {l : List Nat} {i j : Nat} (hne : j ≠ i) :
    j ∈ eraseId l i ↔ j ∈ l := by
  induction l with
  | nil => simp [eraseId]
  | cons k rest ih =>
    rw [eraseId]
    by_cases hk : k = i
    · rw [if_pos hk]
      constructor
      · exact fun h => List.mem_cons_of_mem k h
      · intro h
        rcases List.mem_cons.mp h with rfl | h
        · exact absurd hk hne
        · exact h
    · rw [if_neg hk, List.mem_cons, List.mem_cons, ih]

theorem not_mem_eraseId_self {l : List Nat} {i : Nat} (nd : l.Nodup) :
    i ∉ eraseId l i := by
  induction l with
  | nil => simp [eraseId]
  | cons k rest ih =>
    rw [List.nodup_cons] at nd
    rw [eraseId]
    by_cases hk : k = i
    · rw [if_pos hk]
      rw [hk] at nd
      exact nd.1
    · rw [if_neg hk]
      intro h
      rcases List.mem_cons.mp h with h | h
      · exact hk h.symm
      · exact ih nd.2 h

theorem countId_pos_iff_mem {l : List Nat} {i : Nat} : 1 ≤ countId l i ↔ i ∈ l := by
  induction l with
  | nil => simp [countId]
  | cons k rest ih =>
    rw [countId, List.mem_cons]
    by_cases hk : k = i
    · rw [if_pos hk]
      simp [hk.symm]
    · rw [if_neg hk]
      simp only [Nat.zero_add, ih]
      constructor
      · exact fun h => Or.inr h
      · rintro (rfl | h)
        · exact absurd rfl hk
        · exact h

theorem countId_eraseId_self {l : List Nat} {i : Nat} (h : 1 ≤ countId l i) :
    countId (eraseId l i) i + 1 = countId l i := by
  induction l with
  | nil => simp [countId] at h
  | cons k rest ih =>
    rw [eraseId, countId]
    by_cases hk : k = i
    · rw [if_pos hk, if_pos hk]
      omega
    · rw [countId] at h
      rw [if_neg hk] at h ⊢
      rw [countId, if_neg hk]
      have := ih (by omega)
      omega

theorem countId_eraseId_ne {l : List Nat} {i j : Nat} (hne : j ≠ i) :
    countId (eraseId l i) j = countId l j := by
  induction l with
  | nil => rfl
  | cons k rest ih =>
    rw [eraseId, countId]
    by_cases hk : k = i
    · rw [if_pos hk, if_neg (by rw [hk]; exact fun h => hne h.symm)]
      omega
    · rw [if_neg hk, countId, ih]

theorem length_eraseId {l : List Nat} {i : Nat} (h : 1 ≤ countId l i) :
    (eraseId l i).length + 1 = l.length := by
  induction l with
  | nil => simp [countId] at h
  | cons k rest ih =>
    rw [eraseId]
    by_cases hk : k = i
    · rw [if_pos hk, List.length_cons]
    · rw [countId, if_neg hk] at h
      rw [if_neg hk, List.length_cons, List.length_cons, ih (by omega)]

theorem countId_append (xs ys : List Nat) (i : Nat) :
    countId (xs ++ ys) i = countId xs i + countId ys i := by
  induction xs with
  | nil => simp [countId]
  | cons k rest ih =>
    rw [List.cons_append, countId, countId, ih]
    omega

theorem sumFree_cons (s : Slab) (l : List Slab) :
    sumFree (s :: l) = s.freeSlots + sumFree l := by
  simp [sumFree]

theorem sumFree_updSlab {l : List Slab} {i : Nat} {f : Slab → Slab} {s : Slab}
    (nd : (l.map (fun s => s.id)).Nodup) (h : findSlab l i = some s)
    (hf : ∀ t, (f t).id = t.id) :
    sumFree (updSlab l i f) + s.freeSlots = sumFree l + (f s).freeSlots := by
  induction l with
  | nil => simp [findSlab] at h
  | cons t rest ih =>
    rw [List.map_cons, List.nodup_cons] at nd
    rw [updSlab]
    by_cases ht : t.id = i
    · rw [findSlab, if_pos ht] at h
      injection h with heq
      subst heq
      have hrest : updSlab rest i f = rest := by
        refine updSlab_eq_of_ne (fun u hu hui => nd.1 ?_)
        rw [ht, ← hui]
        exact List.mem_map_of_mem (fun s => s.id) hu
      rw [if_pos ht, hrest, sumFree_cons, sumFree_cons]
      omega
    · rw [findSlab, if_neg ht] at h
      rw [if_neg ht, sumFree_cons, sumFree_cons]
      have := ih nd.2 h
      omega

theorem sumFree_removeSlab {l : List Slab} {i : Nat} {s : Slab}
    (nd : (l.map (fun s => s.id)).Nodup) (h : findSlab l i = some s) :
    sumFree (removeSlab l i) + s.freeSlots = sumFree l := by
  induction l with
  | nil => simp [findSlab] at h
  | cons t rest ih =>
    rw [List.map_cons, List.nodup_cons] at nd
    rw [removeSlab]
    by_cases ht : t.id = i
    · rw [findSlab, if_pos ht] at h
      injection h with heq
      subst heq
      have hrest : removeSlab rest i = rest := by
        refine removeSlab_eq_of_ne (fun u hu hui => nd.1 ?_)
        rw [ht, ← hui]
        exact List.mem_map_of_mem (fun s => s.id) hu
      rw [if_pos ht, hrest, sumFree_cons]
      omega
    · rw [findSlab, if_neg ht] at h
      rw [if_neg ht, sumFree_cons, sumFree_cons]
      have := ih nd.2 h
      omega

theorem length_removeSlab {l : List Slab} {i : Nat} {s : Slab}
    (nd : (l.map (fun s => s.id)).Nodup) (h : findSlab l i = some s) :
    (removeSlab l i).length + 1 = l.length := by
  induction l with
  | nil => simp [findSlab] at h
  | cons t rest ih =>
    rw [List.map_cons, List.nodup_cons] at nd
    rw [removeSlab]
    by_cases ht : t.id = i
    · rw [findSlab, if_pos ht] at h
      injection h with heq
      subst heq
      have hrest : removeSlab rest i = rest := by
        refine removeSlab_eq_of_ne (fun u hu hui => nd.1 ?_)
        rw [ht, ← hui]
        exact List.mem_map_of_mem (fun s => s.id) hu
      rw [if_pos ht, hrest, List.length_cons]
    · rw [findSlab, if_neg ht] at h
      rw [if_neg ht, List.length_cons, List.length_cons, ih nd.2 h]

theorem sumFree_mem_le {l : List Slab} {s : Slab} (hs : s ∈ l) :
    s.freeSlots ≤ sumFree l := by
  induction l with
  | nil => cases hs
  | cons t rest ih =>
    rw [sumFree_cons]
    rcases List.mem_cons.mp hs with rfl | h
    · omega
    · have := ih h
      omega

theorem updSlab_id {l : List Slab} {i : Nat} : updSlab l i (fun t => t) = l := by
  induction l with
  | nil => rfl
  | cons t rest ih =>
    rw [updSlab, ih]
    by_cases ht : t.id = i
    · rw [if_pos ht]
    · rw [if_neg ht]

theorem addFree_id (n : Nat) : ∀ t : Slab, (addFree n t).id = t.id := fun _ => rfl

theorem subOneFree_id : ∀ t : Slab, (subOneFree t).id = t.id := fun _ => rfl

theorem updSlab_addFree_addFree {l : List Slab} {i : Nat} (m n : Nat) :
    updSlab (updSlab l i (addFree m)) i (addFree n) = updSlab l i (addFree (m + n)) := by
  rw [updSlab_updSlab (addFree_id m)]
  refine updSlab_congr (fun t => ?_)
  unfold addFree
  dsimp only
  rw [Nat.add_assoc]

theorem freeslot_spec_none {a : AllocState} {p : Pool} {i : Nat} {fe : Bool}
    (h : findSlab a.slabs i = none) : freeslot a p i fe = (a, p) := by
  simp [freeslot, h]

theorem freeslot_spec_false {a : AllocState} {p : Pool} {i : Nat} {s : Slab}
    (h : findSlab a.slabs i = some s) :
    freeslot a p i false =
      ({ a with
          slabs := updSlab a.slabs i (addFree 1)
          freeList := if s.freeSlots = 0 then i :: a.freeList else a.freeList
          freeSlotCount := a.freeSlotCount + 1 }, p.itemFree) := by
  unfold freeslot
  rw [h]
  dsimp only
  have hcond : ¬((false : Bool) = true ∧ s.freeSlots + 1 = s.size ∧ s.isStack = false) :=
    fun hc => by cases hc.1
  rw [if_neg hcond]
  by_cases h0 : s.freeSlots = 0
  · rw [if_pos (by omega : s.freeSlots + 1 = 1), if_pos h0]
  · rw [if_neg (by omega : ¬ s.freeSlots + 1 = 1), if_neg h0]

theorem freeslot_spec_keep {a : AllocState} {p : Pool} {i : Nat} {s : Slab}
    (h : findSlab a.slabs i = some s)
    (hk : ¬(s.freeSlots + 1 = s.size ∧ s.isStack = false)) :
    freeslot a p i true =
      ({ a with
          slabs := updSlab a.slabs i (addFree 1)
          freeList := if s.freeSlots = 0 then i :: a.freeList else a.freeList
          freeSlotCount := a.freeSlotCount + 1 }, p.itemFree) := by
  unfold freeslot
  rw [h]
  dsimp only
  have hcond : ¬((true : Bool) = true ∧ s.freeSlots + 1 = s.size ∧ s.isStack = false) :=
    fun hc => hk ⟨hc.2.1, hc.2.2⟩
  rw [if_neg hcond]
  by_cases h0 : s.freeSlots = 0
  · rw [if_pos (by omega : s.freeSlots + 1 = 1), if_pos h0]
  · rw [if_neg (by omega : ¬ s.freeSlots + 1 = 1), if_neg h0]

theorem freeslot_spec_del {a : AllocState} {p : Pool} {i : Nat} {s : Slab}
    (h : findSlab a.slabs i = some s)
    (hsz : s.freeSlots + 1 = s.size) (hst : s.isStack = false) :
    freeslot a p i true =
      ({ a with
          slabs := removeSlab a.slabs i
          freeList := eraseId (if s.freeSlots = 0 then i :: a.freeList else a.freeList) i
          freeSlotCount := a.freeSlotCount + 1 - s.size },
       (p.itemFree).slabDelete s.size) := by
  have hrm := @removeSlab_updSlab a.slabs i (addFree 1) (addFree_id 1)
  unfold freeslot
  rw [h]
  dsimp only
  have hcond : ((true : Bool) = true ∧ s.freeSlots + 1 = s.size ∧ s.isStack = false) :=
    ⟨rfl, hsz, hst⟩
  rw [if_pos hcond]
  by_cases h0 : s.freeSlots = 0
  · rw [if_pos (by omega : s.freeSlots + 1 = 1), if_pos h0]
    dsimp only
    rw [hrm]
  · rw [if_neg (by omega : ¬ s.freeSlots + 1 = 1), if_neg h0]
    dsimp only
    rw [hrm]

theorem initSlabLoop_spec_pos {n : Nat} :
    ∀ {a : AllocState} {p : Pool} {i : Nat} {s : Slab},
    findSlab a.slabs i = some s → 1 ≤ s.freeSlots →
    initSlabLoop a p i n =
      ({ a with
          slabs := updSlab a.slabs i (addFree n)
          freeSlotCount := a.freeSlotCount + n },
       { p with freeItems := p.freeItems + n, inuseItems := p.inuseItems - n }) := by
  induction n with
  | zero =>
    intro a p i s h h1
    rw [initSlabLoop]
    have hfun : addFree 0 = fun t => t := funext (fun t => rfl)
    rw [hfun, updSlab_id]
    rfl
  | succ n ih =>
    intro a p i s h h1
    rw [initSlabLoop]
    rw [freeslot_spec_false h, if_neg (by omega : ¬ s.freeSlots = 0)]
    have hfind2 : findSlab (updSlab a.slabs i (addFree 1)) i = some (addFree 1 s) :=
      findSlab_updSlab_self (addFree_id 1) h
    rw [ih hfind2 (by unfold addFree; dsimp only; omega)]
    rw [updSlab_addFree_addFree 1 n]
    have h2 : a.freeSlotCount + 1 + n = a.freeSlotCount + (n + 1) := by omega
    rw [h2]
    have h3 : p.freeItems + 1 + n = p.freeItems + (n + 1) := by omega
    have h4 : p.inuseItems - 1 - n = p.inuseItems - (n + 1) := by omega
    simp only [Pool.itemFree, h3, h4]
    rw [Nat.add_comm 1 n]

theorem initSlabLoop_spec_zero {a : AllocState} {p : Pool} {i : Nat} {s : Slab} {n : Nat}
    (h : findSlab a.slabs i = some s) (h0 : s.freeSlots = 0) (hn : 1 ≤ n) :
    initSlabLoop a p i n =
      ({ a with
          slabs := updSlab a.slabs i (addFree n)
          freeList := i :: a.freeList
          freeSlotCount := a.freeSlotCount + n },
       { p with freeItems := p.freeItems + n, inuseItems := p.inuseItems - n }) := by
  obtain ⟨m, rfl⟩ : ∃ m, n = m + 1 := ⟨n - 1, by omega⟩
  rw [initSlabLoop]
  rw [freeslot_spec_false h, if_pos h0]
  have hfind2 : findSlab (updSlab a.slabs i (addFree 1)) i = some (addFree 1 s) :=
    findSlab_updSlab_self (addFree_id 1) h
  rw [initSlabLoop_spec_pos hfind2 (by unfold addFree; dsimp only; omega)]
  rw [updSlab_addFree_addFree 1 m]
  have h2 : a.freeSlotCount + 1 + m = a.freeSlotCount + (m + 1) := by omega
  rw [h2]
  have h3 : p.freeItems + 1 + m = p.freeItems + (m + 1) := by omega
  have h4 : p.inuseItems - 1 - m = p.inuseItems - (m + 1) := by omega
  simp only [Pool.itemFree, h3, h4]
  rw [Nat.add_comm 1 m]

theorem addSlab_spec {a : AllocState} {p : Pool} {c : Nat}
    (hfresh : ∀ s ∈ a.slabs, s.id < a.nextId) (hc : 1 ≤ c) :
    addSlab a p c =
      ({ a with
          slabs := { id := a.nextId, isStack := false, size := c, freeSlots := c } :: a.slabs
          freeList := a.nextId :: a.freeList
          freeSlotCount := a.freeSlotCount + c
          nextId := a.nextId + 1 },
       { slabs := p.slabs + 1, allocatedItems := p.allocatedItems + c,
         freeItems := p.freeItems + c, inuseItems := p.inuseItems }) := by
  unfold addSlab
  dsimp only
  have hfind : findSlab
      ({ id := a.nextId, isStack := false, size := c, freeSlots := 0 } :: a.slabs)
      a.nextId = some { id := a.nextId, isStack := false, size := c, freeSlots := 0 } := by
    rw [findSlab, if_pos rfl]
  rw [initSlabLoop_spec_zero hfind rfl hc]
  rw [updSlab, if_pos rfl,
    updSlab_eq_of_ne (fun s hs => (Nat.ne_of_lt (hfresh s hs)))]
  unfold addFree
  simp only [Pool.slabNew, Nat.zero_add, Nat.add_sub_cancel]

theorem allocslot_spec_cons {a : AllocState} {p : Pool} {i : Nat} {rest : List Nat} {s : Slab}
    (hfl : a.freeList = i :: rest) (hfind : findSlab a.slabs i = some s)
    (hfs : 1 ≤ s.freeSlots) :
    allocslot a p =
      some ({ a with
              slabs := updSlab a.slabs i subOneFree
              freeList := if s.freeSlots - 1 = 0 then rest else a.freeList
              freeSlotCount := a.freeSlotCount - 1 },
            p.itemAllocate, i) := by
  unfold allocslot
  rw [if_neg (by rw [hfl]; exact List.cons_ne_nil i rest)]
  dsimp only
  rw [hfl]
  dsimp only
  rw [hfind]
  dsimp only
  rw [if_neg (by omega : ¬ s.freeSlots = 0), ← hfl]

theorem allocslot_spec_nil {a : AllocState} {p : Pool}
    (hfl : a.freeList = []) (hfresh : ∀ s ∈ a.slabs, s.id < a.nextId)
    (hhs : 1 ≤ a.heapSize) :
    allocslot a p =
      some ({ a with
              slabs := { id := a.nextId, isStack := false, size := a.heapSize,
                         freeSlots := a.heapSize - 1 } :: a.slabs
              freeList := if a.heapSize - 1 = 0 then [] else [a.nextId]
              freeSlotCount := a.freeSlotCount + a.heapSize - 1
              nextId := a.nextId + 1 },
            { slabs := p.slabs + 1, allocatedItems := p.allocatedItems + a.heapSize,
              freeItems := p.freeItems + a.heapSize - 1, inuseItems := p.inuseItems + 1 },
            a.nextId) := by
  unfold allocslot
  rw [if_pos hfl, addSlab_spec hfresh hhs]
  dsimp only
  rw [findSlab, if_pos rfl]
  dsimp only
  rw [if_neg (by omega : ¬ a.heapSize = 0)]
  rw [updSlab, if_pos rfl,
    updSlab_eq_of_ne (fun s hs => (Nat.ne_of_lt (hfresh s hs)))]
  unfold subOneFree
  simp only [Pool.itemAllocate, Nat.add_sub_cancel]
  rw [hfl]

theorem mkAllocator_spec (ss hs : Nat) (p : Pool) :
    mkAllocator ss hs p =
      ({ stackSize := ss, heapSize := hs,
         slabs := [{ id := 0, isStack := true, size := ss, freeSlots := ss }],
         freeList := if ss = 0 then [] else [0],
         freeSlotCount := ss, allocSlotCount := ss, nextId := 1 },
       { slabs := p.slabs + 1, allocatedItems := p.allocatedItems + ss,
         freeItems := p.freeItems + ss, inuseItems := p.inuseItems }) := by
  unfold mkAllocator
  dsimp only
  by_cases h0 : ss = 0
  · subst h0
    rw [initSlabLoop]
    simp [Pool.slabNew]
  · have hfind : findSlab
        [({ id := 0, isStack := true, size := ss, freeSlots := 0 } : Slab)] 0 =
        some { id := 0, isStack := true, size := ss, freeSlots := 0 } := by
      rw [findSlab, if_pos rfl]
    rw [initSlabLoop_spec_zero hfind rfl (by omega)]
    rw [if_neg h0]
    rw [updSlab, if_pos rfl, updSlab]
    unfold addFree
    simp only [Pool.slabNew, Nat.zero_add, Nat.add_sub_cancel]

theorem length_updSlab {l : List Slab} {i : Nat} {f : Slab → Slab} :
    (updSlab l i f).length = l.length := by
  induction l with
  | nil => rfl
  | cons t rest ih => rw [updSlab, List.length_cons, List.length_cons, ih]

theorem countId_cons_le (j : Nat) (l : List Nat) (t : Nat) :
    countId l t ≤ countId (j :: l) t := by
  rw [countId]
  omega

theorem addFree_isStack (n : Nat) (t : Slab) : (addFree n t).isStack = t.isStack := rfl

theorem addFree_size (n : Nat) (t : Slab) : (addFree n t).size = t.size := rfl

theorem subOneFree_isStack (t : Slab) : (subOneFree t).isStack = t.isStack := rfl

theorem subOneFree_size (t : Slab) : (subOneFree t).size = t.size := rfl

theorem addFree_freeSlots (n : Nat) (t : Slab) :
    (addFree n t).freeSlots = t.freeSlots + n := rfl

theorem subOneFree_freeSlots (t : Slab) :
    (subOneFree t).freeSlots = t.freeSlots - 1 := rfl

theorem allocslot_pres {a : AllocState} {p : Pool} {out : List Nat} (inv : AInv a out) :
    ∃ a1 p1 i, allocslot a p = some (a1, p1, i) ∧
      AInv a1 (i :: out) ∧
      p1.inuseItems = p.inuseItems + 1 ∧
      (p.slabs = a.slabs.length → p1.slabs = a1.slabs.length) ∧
      (NR a out → NR a1 (i :: out)) ∧
      (∀ t ∈ a.slabs, ∃ t1, t1 ∈ a1.slabs ∧ t1.id = t.id ∧
        t1.isStack = t.isStack ∧ t1.size = t.size) := by
  have hnext0 : 1 ≤ a.nextId := by
    obtain ⟨s0, hs0, hid0⟩ := inv.stack_mem
    have := inv.ids_lt s0 hs0
    omega
  have hcnt0 : countId out a.nextId = 0 := by
    by_contra hc
    obtain ⟨s, hs, hid⟩ := inv.out_mem a.nextId (by omega)
    have := inv.ids_lt s hs
    omega
  rcases hfl : a.freeList with _ | ⟨i, rest⟩
  · -- free-slab list empty: addSlab(heapSize) then allocate from the new slab
    have hhs := inv.hs_pos
    refine ⟨_, _, a.nextId, allocslot_spec_nil hfl inv.ids_lt inv.hs_pos, ?_, ?_, ?_, ?_, ?_⟩
    · constructor
      · exact inv.hs_pos
      · rw [List.map_cons]
        refine List.nodup_cons.mpr ⟨?_, inv.ids_nodup⟩
        intro hmem
        obtain ⟨s, hs, hid⟩ := List.mem_map.mp hmem
        have := inv.ids_lt s hs
        dsimp only at hid
        omega
      · intro s hs
        rcases List.mem_cons.mp hs with rfl | hs
        · show a.nextId < a.nextId + 1
          omega
        · show s.id < a.nextId + 1
          have := inv.ids_lt s hs
          omega
      · intro s hs
        rcases List.mem_cons.mp hs with rfl | hs
        · show false = true ↔ a.nextId = 0
          constructor
          · intro hfalse
            cases hfalse
          · intro h0
            exact absurd h0 (by omega)
        · exact inv.stack_iff s hs
      · obtain ⟨s0, hs0, hid0⟩ := inv.stack_mem
        exact ⟨s0, List.mem_cons_of_mem _ hs0, hid0⟩
      · show (if a.heapSize - 1 = 0 then ([] : List Nat) else [a.nextId]).Nodup
        split
        · exact List.nodup_nil
        · exact List.nodup_singleton _
      · intro j hj
        replace hj : j ∈ (if a.heapSize - 1 = 0 then ([] : List Nat) else [a.nextId]) := hj
        split at hj
        · cases hj
        · rcases List.mem_cons.mp hj with rfl | hj
          · exact ⟨_, List.mem_cons_self _ _, rfl⟩
          · cases hj
      · intro s hs
        rcases List.mem_cons.mp hs with rfl | hs
        · show a.nextId ∈ (if a.heapSize - 1 = 0 then ([] : List Nat) else [a.nextId]) ↔
            1 ≤ a.heapSize - 1
          split
          · constructor
            · intro hmem
              cases hmem
            · intro hge
              omega
          · constructor
            · intro _
              omega
            · intro _
              exact List.mem_cons_self _ _
        · have hne : s.id ≠ a.nextId := by
            have := inv.ids_lt s hs
            omega
          have hold := inv.mem_iff s hs
          rw [hfl] at hold
          show s.id ∈ (if a.heapSize - 1 = 0 then ([] : List Nat) else [a.nextId]) ↔
            1 ≤ s.freeSlots
          constructor
          · intro hmem
            split at hmem
            · cases hmem
            · rcases List.mem_cons.mp hmem with heq | hmem
              · exact absurd heq hne
              · cases hmem
          · intro hge
            exact absurd (hold.mpr hge) (List.not_mem_nil s.id)
      · show a.freeSlotCount + a.heapSize - 1 = sumFree ({ id := a.nextId, isStack := false, size := a.heapSize, freeSlots := a.heapSize - 1 } :: a.slabs)
        rw [sumFree_cons]
        have hlit : ({ id := a.nextId, isStack := false, size := a.heapSize, freeSlots := a.heapSize - 1 } : Slab).freeSlots = a.heapSize - 1 := rfl
        rw [hlit]
        have := inv.fsc_sum
        omega
      · intro s hs
        rcases List.mem_cons.mp hs with rfl | hs
        · show a.heapSize = a.heapSize - 1 + countId (a.nextId :: out) a.nextId
          rw [countId, if_pos rfl, hcnt0]
          omega
        · have hne : a.nextId ≠ s.id := by
            have := inv.ids_lt s hs
            omega
          show s.size = s.freeSlots + countId (a.nextId :: out) s.id
          rw [countId, if_neg hne]
          have := inv.live_eq s hs
          omega
      · intro j hj
        by_cases hji : j = a.nextId
        · subst hji
          exact ⟨_, List.mem_cons_self _ _, rfl⟩
        · rw [countId, if_neg (fun h => hji h.symm)] at hj
          obtain ⟨s, hs, hid⟩ := inv.out_mem j (by omega)
          exact ⟨s, List.mem_cons_of_mem _ hs, hid⟩
    · rfl
    · intro hsync
      show p.slabs + 1 = _
      rw [List.length_cons, hsync]
    · intro hnr t ht hstack
      rcases List.mem_cons.mp ht with rfl | ht
      · show 1 ≤ countId (a.nextId :: out) a.nextId
        rw [countId, if_pos rfl]
        omega
      · have h1 := hnr t ht hstack
        have h2 := countId_cons_le a.nextId out t.id
        omega
    · intro t ht
      exact ⟨t, List.mem_cons_of_mem _ ht, rfl, rfl, rfl⟩
  · -- free-slab list nonempty: allocate from its head
    obtain ⟨s, hsmem, hsid⟩ := inv.flist_mem i (by rw [hfl]; exact List.mem_cons_self i rest)
    have hfind : findSlab a.slabs i = some s := findSlab_of_mem inv.ids_nodup hsmem hsid
    have hfs : 1 ≤ s.freeSlots := by
      have := inv.mem_iff s hsmem
      rw [hsid] at this
      exact this.mp (by rw [hfl]; exact List.mem_cons_self i rest)
    have hflnodup : (i :: rest).Nodup := by
      have := inv.flist_nodup
      rw [hfl] at this
      exact this
    have huniq : ∀ t ∈ a.slabs, t.id = i → t = s := by
      intro t ht hti
      have h1 := findSlab_of_mem inv.ids_nodup ht hti
      rw [hfind] at h1
      injection h1 with h1
      exact h1.symm
    refine ⟨_, _, i, allocslot_spec_cons hfl hfind hfs, ?_, ?_, ?_, ?_, ?_⟩
    · constructor
      · exact inv.hs_pos
      · show ((updSlab a.slabs i subOneFree).map (fun s => s.id)).Nodup
        rw [ids_updSlab subOneFree_id]
        exact inv.ids_nodup
      · intro u hu
        obtain ⟨t, ht, rfl⟩ := mem_updSlab.mp hu
        have := inv.ids_lt t ht
        show (if t.id = i then subOneFree t else t).id < a.nextId
        split
        · rw [subOneFree_id]
          exact this
        · exact this
      · intro u hu
        obtain ⟨t, ht, rfl⟩ := mem_updSlab.mp hu
        have := inv.stack_iff t ht
        by_cases hti : t.id = i
        · rw [if_pos hti]
          show (subOneFree t).isStack = true ↔ (subOneFree t).id = 0
          rw [subOneFree_id, subOneFree_isStack]
          exact this
        · rw [if_neg hti]
          exact this
      · obtain ⟨s0, hs0, hid0⟩ := inv.stack_mem
        refine ⟨_, mem_updSlab_of_mem hs0, ?_⟩
        by_cases h0i : s0.id = i
        · rw [if_pos h0i, subOneFree_id]
          exact hid0
        · rw [if_neg h0i]
          exact hid0
      · show (if s.freeSlots - 1 = 0 then rest else a.freeList).Nodup
        split
        · exact hflnodup.of_cons
        · exact inv.flist_nodup
      · intro j hj
        replace hj : j ∈ (if s.freeSlots - 1 = 0 then rest else a.freeList) := hj
        have hjl : j ∈ a.freeList := by
          split at hj
          · rw [hfl]
            exact List.mem_cons_of_mem _ hj
          · exact hj
        obtain ⟨t, ht, htid⟩ := inv.flist_mem j hjl
        refine ⟨_, mem_updSlab_of_mem ht, ?_⟩
        by_cases hti : t.id = i
        · rw [if_pos hti, subOneFree_id]
          exact htid
        · rw [if_neg hti]
          exact htid
      · intro u hu
        obtain ⟨t, ht, rfl⟩ := mem_updSlab.mp hu
        by_cases hti : t.id = i
        · have hts := huniq t ht hti
          subst hts
          rw [if_pos hti]
          show (subOneFree t).id ∈ (if t.freeSlots - 1 = 0 then rest else a.freeList) ↔
            1 ≤ (subOneFree t).freeSlots
          rw [subOneFree_id, subOneFree_freeSlots, hti]
          by_cases hz : t.freeSlots - 1 = 0
          · rw [if_pos hz]
            constructor
            · intro hmem
              exact absurd hmem (List.nodup_cons.mp hflnodup).1
            · intro hge
              omega
          · rw [if_neg hz]
            constructor
            · intro _
              omega
            · intro _
              rw [hfl]
              exact List.mem_cons_self i rest
        · rw [if_neg hti]
          have hold := inv.mem_iff t ht
          show t.id ∈ (if s.freeSlots - 1 = 0 then rest else a.freeList) ↔ 1 ≤ t.freeSlots
          by_cases hz : s.freeSlots - 1 = 0
          · rw [if_pos hz]
            rw [hfl] at hold
            constructor
            · intro hmem
              exact hold.mp (List.mem_cons_of_mem _ hmem)
            · intro hge
              rcases List.mem_cons.mp (hold.mpr hge) with heq | hmem
              · exact absurd heq hti
              · exact hmem
          · rw [if_neg hz]
            exact hold
      · show a.freeSlotCount - 1 = sumFree (updSlab a.slabs i subOneFree)
        have hsum := sumFree_updSlab inv.ids_nodup hfind subOneFree_id
        rw [subOneFree_freeSlots] at hsum
        have hle := sumFree_mem_le hsmem
        have hfsc := inv.fsc_sum
        omega
      · intro u hu
        obtain ⟨t, ht, rfl⟩ := mem_updSlab.mp hu
        by_cases hti : t.id = i
        · have hts := huniq t ht hti
          subst hts
          rw [if_pos hti]
          show (subOneFree t).size = (subOneFree t).freeSlots +
            countId (i :: out) (subOneFree t).id
          rw [subOneFree_id, subOneFree_size, subOneFree_freeSlots, hti,
            countId, if_pos rfl]
          have := inv.live_eq t ht
          rw [hti] at this
          omega
        · rw [if_neg hti]
          show t.size = t.freeSlots + countId (i :: out) t.id
          rw [countId, if_neg (fun h => hti h.symm)]
          have := inv.live_eq t ht
          omega
      · intro j hj
        by_cases hji : j = i
        · subst hji
          refine ⟨_, mem_updSlab_of_mem hsmem, ?_⟩
          by_cases hsi : s.id = j
          · rw [if_pos hsi, subOneFree_id]
            exact hsid
          · rw [if_neg hsi]
            exact hsid
        · rw [countId, if_neg (fun h => hji h.symm)] at hj
          obtain ⟨t, ht, htid⟩ := inv.out_mem j (by omega)
          refine ⟨_, mem_updSlab_of_mem ht, ?_⟩
          by_cases hti : t.id = i
          · rw [if_pos hti, subOneFree_id]
            exact htid
          · rw [if_neg hti]
            exact htid
    · rfl
    · intro hsync
      show p.slabs = _
      rw [length_updSlab, hsync]
    · intro hnr u hu hstack
      obtain ⟨t, ht, rfl⟩ := mem_updSlab.mp hu
      have hid : (if t.id = i then subOneFree t else t).id = t.id := by
        split
        · rw [subOneFree_id]
        · rfl
      have hstk : t.isStack = false := by
        by_cases hti : t.id = i
        · rw [if_pos hti, subOneFree_isStack] at hstack
          exact hstack
        · rw [if_neg hti] at hstack
          exact hstack
      have h1 := hnr t ht hstk
      have h2 := countId_cons_le i out t.id
      rw [hid]
      omega
    · intro t ht
      refine ⟨_, mem_updSlab_of_mem ht, ?_, ?_, ?_⟩
      · by_cases hti : t.id = i
        · rw [if_pos hti, subOneFree_id]
        · rw [if_neg hti]
      · by_cases hti : t.id = i
        · rw [if_pos hti, subOneFree_isStack]
        · rw [if_neg hti]
      · by_cases hti : t.id = i
        · rw [if_pos hti, subOneFree_size]
        · rw [if_neg hti]

theorem dealloc_pres {a : AllocState} {p : Pool} {out : List Nat} {i : Nat}
    {a1 : AllocState} {p1 : Pool}
    (inv : AInv a out) (hcnt : 1 ≤ countId out i)
    (heq : deallocate a p i = (a1, p1)) :
    AInv a1 (eraseId out i) ∧
    p1.inuseItems = p.inuseItems - 1 ∧
    (p.slabs = a.slabs.length → p1.slabs = a1.slabs.length) ∧
    (NR a out → NR a1 (eraseId out i)) ∧
    (∃ t1, t1 ∈ a1.slabs ∧ t1.isStack = true) ∧
    (∀ t ∈ a.slabs, (¬ ∃ t1, t1 ∈ a1.slabs ∧ t1.id = t.id) →
      t.id = i ∧ t.isStack = false ∧ t.freeSlots + 1 = t.size ∧
      (t.id ∈ a1.freeList → False) ∧ a1.freeSlotCount + t.size = a.freeSlotCount + 1 ∧
      p1 = (p.itemFree).slabDelete t.size) := by
  obtain ⟨s, hsmem, hsid⟩ := inv.out_mem i hcnt
  have hfind : findSlab a.slabs i = some s := findSlab_of_mem inv.ids_nodup hsmem hsid
  have hlive := inv.live_eq s hsmem
  rw [hsid] at hlive
  have hfslt : s.freeSlots < s.size := by omega
  have huniq : ∀ t ∈ a.slabs, t.id = i → t = s := by
    intro t ht hti
    have h1 := findSlab_of_mem inv.ids_nodup ht hti
    rw [hfind] at h1
    injection h1 with h1
    exact h1.symm
  obtain ⟨s0, hs0, hid0⟩ := inv.stack_mem
  have hs0stack : s0.isStack = true := (inv.stack_iff s0 hs0).mpr hid0
  by_cases hdel : s.freeSlots + 1 = s.size ∧ s.isStack = false
  · -- the freed slot empties a heap slab: the slab is released
    have hcnt1 : countId out i = 1 := by omega
    have hine : i ≠ 0 := by
      intro h0
      have hstack : s.isStack = true := (inv.stack_iff s hsmem).mpr (by rw [hsid, h0])
      have h2 := hdel.2
      rw [hstack] at h2
      exact absurd h2 (by decide)
    rw [deallocate, freeslot_spec_del hfind hdel.1 hdel.2] at heq
    injection heq with ha hp
    subst ha
    subst hp
    have hflnodup2 : (if s.freeSlots = 0 then i :: a.freeList else a.freeList).Nodup := by
      split
      · refine List.nodup_cons.mpr ⟨?_, inv.flist_nodup⟩
        intro hmem
        have := (inv.mem_iff s hsmem).mp
        rw [hsid] at this
        have := this hmem
        omega
      · exact inv.flist_nodup
    refine ⟨?_, ?_, ?_, ?_, ?_, ?_⟩
    · constructor
      · exact inv.hs_pos
      · exact inv.ids_nodup.sublist ((removeSlab_sublist a.slabs i).map (fun s => s.id))
      · intro u hu
        exact inv.ids_lt u (mem_removeSlab.mp hu).1
      · intro u hu
        exact inv.stack_iff u (mem_removeSlab.mp hu).1
      · refine ⟨s0, mem_removeSlab.mpr ⟨hs0, ?_⟩, hid0⟩
        rw [hid0]
        exact fun h => hine h.symm
      · show (eraseId (if s.freeSlots = 0 then i :: a.freeList else a.freeList) i).Nodup
        exact hflnodup2.sublist (eraseId_sublist _ i)
      · intro j hj
        replace hj : j ∈ eraseId (if s.freeSlots = 0 then i :: a.freeList else a.freeList) i := hj
        by_cases hji : j = i
        · subst hji
          exact absurd hj (not_mem_eraseId_self hflnodup2)
        · rw [mem_eraseId_of_ne hji] at hj
          have hjl : j ∈ a.freeList := by
            split at hj
            · rcases List.mem_cons.mp hj with heq | hmem
              · exact absurd heq hji
              · exact hmem
            · exact hj
          obtain ⟨t, ht, htid⟩ := inv.flist_mem j hjl
          refine ⟨t, mem_removeSlab.mpr ⟨ht, ?_⟩, htid⟩
          rw [htid]
          exact hji
      · intro u hu
        obtain ⟨humem, huid⟩ := mem_removeSlab.mp hu
        show u.id ∈ eraseId (if s.freeSlots = 0 then i :: a.freeList else a.freeList) i ↔
          1 ≤ u.freeSlots
        rw [mem_eraseId_of_ne huid]
        have hold := inv.mem_iff u humem
        split
        · constructor
          · intro hmem
            rcases List.mem_cons.mp hmem with heq | hmem
            · exact absurd heq huid
            · exact hold.mp hmem
          · intro hge
            exact List.mem_cons_of_mem _ (hold.mpr hge)
        · exact hold
      · show a.freeSlotCount + 1 - s.size = sumFree (removeSlab a.slabs i)
        have hsum := sumFree_removeSlab inv.ids_nodup hfind
        have hfsc := inv.fsc_sum
        omega
      · intro u hu
        obtain ⟨humem, huid⟩ := mem_removeSlab.mp hu
        rw [countId_eraseId_ne huid]
        exact inv.live_eq u humem
      · intro j hj
        by_cases hji : j = i
        · subst hji
          rw [show countId (eraseId out j) j = 0 by
            have := @countId_eraseId_self out j (by omega)
            omega] at hj
          omega
        · rw [countId_eraseId_ne hji] at hj
          obtain ⟨t, ht, htid⟩ := inv.out_mem j hj
          refine ⟨t, mem_removeSlab.mpr ⟨ht, ?_⟩, htid⟩
          rw [htid]
          exact hji
    · rfl
    · intro hsync
      show p.slabs - 1 = (removeSlab a.slabs i).length
      have hlen := length_removeSlab inv.ids_nodup hfind
      omega
    · intro hnr u hu hstk
      obtain ⟨humem, huid⟩ := mem_removeSlab.mp hu
      rw [countId_eraseId_ne huid]
      exact hnr u humem hstk
    · refine ⟨s0, mem_removeSlab.mpr ⟨hs0, ?_⟩, hs0stack⟩
      rw [hid0]
      exact fun h => hine h.symm
    · intro t ht hgone
      have hti : t.id = i := by
        by_contra hti
        exact hgone ⟨t, mem_removeSlab.mpr ⟨ht, hti⟩, rfl⟩
      have hts := huniq t ht hti
      subst hts
      refine ⟨hti, hdel.2, hdel.1, ?_, ?_, ?_⟩
      · intro hmem
        rw [hti] at hmem
        exact absurd hmem (not_mem_eraseId_self hflnodup2)
      · show a.freeSlotCount + 1 - t.size + t.size = a.freeSlotCount + 1
        have := sumFree_mem_le hsmem
        have hfsc := inv.fsc_sum
        omega
      · rfl
  · -- ordinary free: the slab keeps at least one live slot or is the in-stack slab
    rw [deallocate, freeslot_spec_keep hfind hdel] at heq
    injection heq with ha hp
    subst ha
    subst hp
    have hcnt2 : 2 ≤ countId out i ∨ s.isStack = true := by
      rcases Bool.eq_false_or_eq_true s.isStack with hst | hst
      · right
        exact hst
      · left
        have : ¬ (s.freeSlots + 1 = s.size) := fun hc => hdel ⟨hc, hst⟩
        omega
    refine ⟨?_, ?_, ?_, ?_, ?_, ?_⟩
    · constructor
      · exact inv.hs_pos
      · show ((updSlab a.slabs i (addFree 1)).map (fun s => s.id)).Nodup
        rw [ids_updSlab (addFree_id 1)]
        exact inv.ids_nodup
      · intro u hu
        obtain ⟨t, ht, rfl⟩ := mem_updSlab.mp hu
        have := inv.ids_lt t ht
        split
        · rw [addFree_id]
          exact this
        · exact this
      · intro u hu
        obtain ⟨t, ht, rfl⟩ := mem_updSlab.mp hu
        have := inv.stack_iff t ht
        by_cases hti : t.id = i
        · rw [if_pos hti]
          show (addFree 1 t).isStack = true ↔ (addFree 1 t).id = 0
          rw [addFree_id, addFree_isStack]
          exact this
        · rw [if_neg hti]
          exact this
      · refine ⟨_, mem_updSlab_of_mem hs0, ?_⟩
        by_cases h0i : s0.id = i
        · rw [if_pos h0i, addFree_id]
          exact hid0
        · rw [if_neg h0i]
          exact hid0
      · show (if s.freeSlots = 0 then i :: a.freeList else a.freeList).Nodup
        split
        · refine List.nodup_cons.mpr ⟨?_, inv.flist_nodup⟩
          intro hmem
          have h2 := (inv.mem_iff s hsmem).mp
          rw [hsid] at h2
          have := h2 hmem
          omega
        · exact inv.flist_nodup
      · intro j hj
        replace hj : j ∈ (if s.freeSlots = 0 then i :: a.freeList else a.freeList) := hj
        by_cases hji : j = i
        · subst hji
          refine ⟨_, mem_updSlab_of_mem hsmem, ?_⟩
          by_cases hsi : s.id = j
          · rw [if_pos hsi, addFree_id]
            exact hsid
          · rw [if_neg hsi]
            exact hsid
        · have hjl : j ∈ a.freeList := by
            split at hj
            · rcases List.mem_cons.mp hj with heq | hmem
              · exact absurd heq hji
              · exact hmem
            · exact hj
          obtain ⟨t, ht, htid⟩ := inv.flist_mem j hjl
          refine ⟨_, mem_updSlab_of_mem ht, ?_⟩
          by_cases hti : t.id = i
          · rw [if_pos hti, addFree_id]
            exact htid
          · rw [if_neg hti]
            exact htid
      · intro u hu
        obtain ⟨t, ht, rfl⟩ := mem_updSlab.mp hu
        by_cases hti : t.id = i
        · have hts := huniq t ht hti
          subst hts
          rw [if_pos hti]
          show (addFree 1 t).id ∈ (if t.freeSlots = 0 then i :: a.freeList else a.freeList) ↔
            1 ≤ (addFree 1 t).freeSlots
          rw [addFree_id, addFree_freeSlots, hti]
          constructor
          · intro _
            omega
          · intro _
            split
            · exact List.mem_cons_self _ _
            · have h2 := inv.mem_iff t hsmem
              rw [hti] at h2
              exact h2.mpr (by omega)
        · rw [if_neg hti]
          have hold := inv.mem_iff t ht
          show t.id ∈ (if s.freeSlots = 0 then i :: a.freeList else a.freeList) ↔
            1 ≤ t.freeSlots
          split
          · constructor
            · intro hmem
              rcases List.mem_cons.mp hmem with heq | hmem
              · exact absurd heq hti
              · exact hold.mp hmem
            · intro hge
              exact List.mem_cons_of_mem _ (hold.mpr hge)
          · exact hold
      · show a.freeSlotCount + 1 = sumFree (updSlab a.slabs i (addFree 1))
        have hsum := sumFree_updSlab inv.ids_nodup hfind (addFree_id 1)
        rw [addFree_freeSlots] at hsum
        have hfsc := inv.fsc_sum
        omega
      · intro u hu
        obtain ⟨t, ht, rfl⟩ := mem_updSlab.mp hu
        by_cases hti : t.id = i
        · have hts := huniq t ht hti
          subst hts
          rw [if_pos hti]
          show (addFree 1 t).size = (addFree 1 t).freeSlots +
            countId (eraseId out i) (addFree 1 t).id
          rw [addFree_id, addFree_size, addFree_freeSlots, hti]
          have h2 := @countId_eraseId_self out i hcnt
          have h3 := inv.live_eq t ht
          rw [hti] at h3
          omega
        · rw [if_neg hti]
          show t.size = t.freeSlots + countId (eraseId out i) t.id
          rw [countId_eraseId_ne hti]
          exact inv.live_eq t ht
      · intro j hj
        by_cases hji : j = i
        · subst hji
          refine ⟨_, mem_updSlab_of_mem hsmem, ?_⟩
          by_cases hsi : s.id = j
          · rw [if_pos hsi, addFree_id]
            exact hsid
          · rw [if_neg hsi]
            exact hsid
        · rw [countId_eraseId_ne hji] at hj
          obtain ⟨t, ht, htid⟩ := inv.out_mem j hj
          refine ⟨_, mem_updSlab_of_mem ht, ?_⟩
          by_cases hti : t.id = i
          · rw [if_pos hti, addFree_id]
            exact htid
          · rw [if_neg hti]
            exact htid
    · rfl
    · intro hsync
      show p.slabs = (updSlab a.slabs i (addFree 1)).length
      rw [length_updSlab, hsync]
    · intro hnr u hu hstk
      obtain ⟨t, ht, rfl⟩ := mem_updSlab.mp hu
      have hid : (if t.id = i then addFree 1 t else t).id = t.id := by
        split
        · rw [addFree_id]
        · rfl
      have hstk2 : t.isStack = false := by
        by_cases hti : t.id = i
        · rw [if_pos hti, addFree_isStack] at hstk
          exact hstk
        · rw [if_neg hti] at hstk
          exact hstk
      rw [hid]
      by_cases hti : t.id = i
      · have hts := huniq t ht hti
        subst hts
        rcases hcnt2 with h2 | h2
        · rw [hti]
          have := @countId_eraseId_self out i hcnt
          omega
        · rw [hstk2] at h2
          cases h2
      · rw [countId_eraseId_ne hti]
        exact hnr t ht hstk2
    · refine ⟨_, mem_updSlab_of_mem hs0, ?_⟩
      by_cases h0i : s0.id = i
      · rw [if_pos h0i]
        show (addFree 1 s0).isStack = true
        rw [addFree_isStack]
        exact hs0stack
      · rw [if_neg h0i]
        exact hs0stack
    · intro t ht hgone
      exfalso
      refine hgone ⟨_, mem_updSlab_of_mem ht, ?_⟩
      by_cases hti : t.id = i
      · rw [if_pos hti, addFree_id]
      · rw [if_neg hti]

theorem reserve_pres {a : AllocState} {p : Pool} {out : List Nat} {n : Nat}
    {a1 : AllocState} {p1 : Pool}
    (inv : AInv a out) (heq : reserveOp a p n = (a1, p1)) :
    AInv a1 out ∧ p1.inuseItems = p.inuseItems ∧
    (p.slabs = a.slabs.length → p1.slabs = a1.slabs.length) ∧
    (∀ t ∈ a.slabs, ∃ t1, t1 ∈ a1.slabs ∧ t1.id = t.id ∧
      t1.isStack = t.isStack ∧ t1.size = t.size) := by
  have hnext0 : 1 ≤ a.nextId := by
    obtain ⟨s0, hs0, hid0⟩ := inv.stack_mem
    have := inv.ids_lt s0 hs0
    omega
  have hcnt0 : countId out a.nextId = 0 := by
    by_contra hc
    obtain ⟨s, hs, hid⟩ := inv.out_mem a.nextId (by omega)
    have := inv.ids_lt s hs
    omega
  rw [reserveOp] at heq
  by_cases hlt : a.freeSlotCount < n
  · rw [if_pos hlt, addSlab_spec inv.ids_lt (by omega)] at heq
    injection heq with ha hp
    subst ha
    subst hp
    refine ⟨?_, rfl, ?_, ?_⟩
    · constructor
      · exact inv.hs_pos
      · rw [List.map_cons]
        refine List.nodup_cons.mpr ⟨?_, inv.ids_nodup⟩
        intro hmem
        obtain ⟨s, hs, hid⟩ := List.mem_map.mp hmem
        have := inv.ids_lt s hs
        dsimp only at hid
        omega
      · intro s hs
        rcases List.mem_cons.mp hs with rfl | hs
        · show a.nextId < a.nextId + 1
          omega
        · show s.id < a.nextId + 1
          have := inv.ids_lt s hs
          omega
      · intro s hs
        rcases List.mem_cons.mp hs with rfl | hs
        · show false = true ↔ a.nextId = 0
          constructor
          · intro hfalse
            cases hfalse
          · intro h0
            exact absurd h0 (by omega)
        · exact inv.stack_iff s hs
      · obtain ⟨s0, hs0, hid0⟩ := inv.stack_mem
        exact ⟨s0, List.mem_cons_of_mem _ hs0, hid0⟩
      · show (a.nextId :: a.freeList).Nodup
        refine List.nodup_cons.mpr ⟨?_, inv.flist_nodup⟩
        intro hmem
        obtain ⟨t, ht, htid⟩ := inv.flist_mem a.nextId hmem
        have := inv.ids_lt t ht
        omega
      · intro j hj
        rcases List.mem_cons.mp hj with rfl | hj
        · exact ⟨_, List.mem_cons_self _ _, rfl⟩
        · obtain ⟨t, ht, htid⟩ := inv.flist_mem j hj
          exact ⟨t, List.mem_cons_of_mem _ ht, htid⟩
      · intro s hs
        rcases List.mem_cons.mp hs with rfl | hs
        · show a.nextId ∈ a.nextId :: a.freeList ↔ 1 ≤ n - a.freeSlotCount
          constructor
          · intro _
            omega
          · intro _
            exact List.mem_cons_self _ _
        · have hne : s.id ≠ a.nextId := by
            have := inv.ids_lt s hs
            omega
          show s.id ∈ a.nextId :: a.freeList ↔ 1 ≤ s.freeSlots
          have hold := inv.mem_iff s hs
          constructor
          · intro hmem
            rcases List.mem_cons.mp hmem with heq | hmem
            · exact absurd heq hne
            · exact hold.mp hmem
          · intro hge
            exact List.mem_cons_of_mem _ (hold.mpr hge)
      · show a.freeSlotCount + (n - a.freeSlotCount) = sumFree ({ id := a.nextId, isStack := false, size := n - a.freeSlotCount, freeSlots := n - a.freeSlotCount } :: a.slabs)
        rw [sumFree_cons]
        have hlit : ({ id := a.nextId, isStack := false, size := n - a.freeSlotCount, freeSlots := n - a.freeSlotCount } : Slab).freeSlots = n - a.freeSlotCount := rfl
        rw [hlit]
        have := inv.fsc_sum
        omega
      · intro s hs
        rcases List.mem_cons.mp hs with rfl | hs
        · show n - a.freeSlotCount = n - a.freeSlotCount + countId out a.nextId
          rw [hcnt0]
          omega
        · exact inv.live_eq s hs
      · intro j hj
        obtain ⟨t, ht, htid⟩ := inv.out_mem j hj
        exact ⟨t, List.mem_cons_of_mem _ ht, htid⟩
    · intro hsync
      show p.slabs + 1 = _
      rw [List.length_cons, hsync]
    · intro t ht
      exact ⟨t, List.mem_cons_of_mem _ ht, rfl, rfl, rfl⟩
  · rw [if_neg hlt] at heq
    injection heq with ha hp
    subst ha
    subst hp
    exact ⟨inv, rfl, fun h => h, fun t ht => ⟨t, ht, rfl, rfl, rfl⟩⟩

theorem mkAllocator_inv (ss hs : Nat) (hhs : 1 ≤ hs) (p : Pool) :
    AInv (mkAllocator ss hs p).1 [] ∧
    (mkAllocator ss hs p).2.inuseItems = p.inuseItems ∧
    (mkAllocator ss hs p).2.slabs = p.slabs + 1 ∧
    (mkAllocator ss hs p).1.slabs.length = 1 ∧
    NR (mkAllocator ss hs p).1 [] := by
  rw [mkAllocator_spec]
  refine ⟨?_, rfl, rfl, rfl, ?_⟩
  · constructor
    · exact hhs
    · exact List.nodup_singleton _
    · intro s hs
      rcases List.mem_cons.mp hs with rfl | hs
      · show 0 < 1
        omega
      · cases hs
    · intro s hs
      rcases List.mem_cons.mp hs with rfl | hs
      · show true = true ↔ (0 : Nat) = 0
        constructor
        · intro _
          rfl
        · intro _
          rfl
      · cases hs
    · exact ⟨_, List.mem_cons_self _ _, rfl⟩
    · show (if ss = 0 then ([] : List Nat) else [0]).Nodup
      split
      · exact List.nodup_nil
      · exact List.nodup_singleton _
    · intro j hj
      replace hj : j ∈ (if ss = 0 then ([] : List Nat) else [0]) := hj
      split at hj
      · cases hj
      · rcases List.mem_cons.mp hj with rfl | hj
        · exact ⟨_, List.mem_cons_self _ _, rfl⟩
        · cases hj
    · intro s hs
      rcases List.mem_cons.mp hs with rfl | hs
      · show (0 : Nat) ∈ (if ss = 0 then ([] : List Nat) else [0]) ↔ 1 ≤ ss
        split
        · constructor
          · intro hmem
            cases hmem
          · intro hge
            omega
        · constructor
          · intro _
            omega
          · intro _
            exact List.mem_cons_self _ _
      · cases hs
    · show ss = sumFree [{ id := 0, isStack := true, size := ss, freeSlots := ss }]
      rw [sumFree_cons]
      have hlit : ({ id := 0, isStack := true, size := ss, freeSlots := ss } : Slab).freeSlots = ss := rfl
      rw [hlit]
      show ss = ss + sumFree []
      rw [sumFree]
      rfl
    · intro s hs
      rcases List.mem_cons.mp hs with rfl | hs
      · show ss = ss + countId [] 0
        rw [countId]
        omega
      · cases hs
    · intro j hj
      rw [countId] at hj
      omega
  · intro s hs hstk
    rcases List.mem_cons.mp hs with rfl | hs
    · cases hstk
    · cases hs

theorem reach_inv {allowR : Bool} {ss hs : Nat} {a : AllocState} {p : Pool} {out : List Nat}
    (h : Reach allowR ss hs a p out) :
    AInv a out ∧ p.inuseItems = out.length ∧ p.slabs = a.slabs.length ∧
    (allowR = false → NR a out) := by
  induction h with
  | init allowR ss hs hhs =>
    obtain ⟨hinv, hin, hps, hlen, hnr⟩ := mkAllocator_inv ss hs hhs pool0
    refine ⟨hinv, ?_, ?_, fun _ => hnr⟩
    · rw [hin]
      rfl
    · rw [hps, hlen]
      rfl
  | alloc hr heq ih =>
    obtain ⟨a1', p1', i', hsome, hinv, hinuse, hsync, hnr, _⟩ := allocslot_pres ih.1
    rw [allocate, if_pos rfl, hsome] at heq
    injection heq with heq
    injection heq with h1 heq
    injection heq with h2 h3
    subst h1
    subst h2
    subst h3
    refine ⟨hinv, ?_, hsync ih.2.2.1, fun hf => hnr (ih.2.2.2 hf)⟩
    rw [hinuse, ih.2.1]
    rfl
  | dealloc hr hcnt heq ih =>
    obtain ⟨hinv, hinuse, hsync, hnr, _, _⟩ := dealloc_pres ih.1 hcnt heq
    refine ⟨hinv, ?_, hsync ih.2.2.1, fun hf => hnr (ih.2.2.2 hf)⟩
    have := length_eraseId hcnt
    rw [hinuse, ih.2.1]
    omega
  | reserve hr heq ih =>
    obtain ⟨hinv, hinuse, hsync, _⟩ := reserve_pres ih.1 heq
    refine ⟨hinv, ?_, hsync ih.2.2.1, ?_⟩
    · rw [hinuse, ih.2.1]
    · intro hf
      cases hf

theorem AInv_congr {a : AllocState} {out1 out2 : List Nat}
    (inv : AInv a out1) (h : ∀ j, countId out1 j = countId out2 j) : AInv a out2 := by
  refine ⟨inv.hs_pos, inv.ids_nodup, inv.ids_lt, inv.stack_iff, inv.stack_mem,
    inv.flist_nodup, inv.flist_mem, inv.mem_iff, inv.fsc_sum, ?_, ?_⟩
  · intro s hs
    rw [← h]
    exact inv.live_eq s hs
  · intro j hj
    rw [← h] at hj
    exact inv.out_mem j hj

theorem clearAll_spec : ∀ (out : List Nat) {a : AllocState} {p : Pool},
    AInv a out → NR a out → p.inuseItems = out.length → p.slabs = a.slabs.length →
    AInv (clearAll a p out).1 [] ∧ NR (clearAll a p out).1 [] ∧
    (clearAll a p out).2.inuseItems = 0 ∧
    (clearAll a p out).2.slabs = (clearAll a p out).1.slabs.length := by
  intro out
  induction out with
  | nil =>
    intro a p inv hnr hin hps
    exact ⟨inv, hnr, hin, hps⟩
  | cons i rest ih =>
    intro a p inv hnr hin hps
    have hcnt : 1 ≤ countId (i :: rest) i := by
      rw [countId, if_pos rfl]
      omega
    have heq : deallocate a p i = ((deallocate a p i).1, (deallocate a p i).2) := rfl
    obtain ⟨hinv, hinuse, hsync, hnr2, _, _⟩ := dealloc_pres inv hcnt heq
    have herase : eraseId (i :: rest) i = rest := by
      rw [eraseId, if_pos rfl]
    rw [herase] at hinv hnr2
    rw [clearAll]
    refine ih (hinv) (hnr2 hnr) ?_ (hsync hps)
    rw [hinuse, hin]
    rw [List.length_cons]
    omega

theorem length_eq_one_of_all_zero {l : List Slab}
    (nd : (l.map (fun s => s.id)).Nodup)
    (hz : ∀ s ∈ l, s.id = 0) (hne : ∃ s, s ∈ l ∧ s.id = 0) : l.length = 1 := by
  cases l with
  | nil =>
    obtain ⟨s, hs, _⟩ := hne
    cases hs
  | cons t rest =>
    cases rest with
    | nil => rfl
    | cons u rest2 =>
      exfalso
      rw [List.map_cons, List.nodup_cons] at nd
      apply nd.1
      rw [hz t (List.mem_cons_self _ _),
        ← hz u (List.mem_cons_of_mem _ (List.mem_cons_self _ _))]
      exact List.mem_map_of_mem (fun s : Slab => s.id) (List.mem_cons_self u rest2)

theorem take_len_append {α : Type} (xs ys : List α) : (xs ++ ys).take xs.length = xs := by
  induction xs with
  | nil => rfl
  | cons x rest ih => rw [List.cons_append, List.length_cons, List.take_succ_cons, ih]

theorem drop_len_append {α : Type} (xs ys : List α) : (xs ++ ys).drop xs.length = ys := by
  induction xs with
  | nil => rfl
  | cons x rest ih => rw [List.cons_append, List.length_cons, List.drop_succ_cons, ih]

theorem countId_cons_eq_append (l : List Nat) (x j : Nat) :
    countId (x :: l) j = countId (l ++ [x]) j := by
  rw [countId_append, countId, countId, countId]
  omega

theorem outOf_mk (ident : Nat) (al : AllocState) (es : List SNode) :
    outOf { ident := ident, alloc := al, elems := es } = es.map (fun x => x.slab) := rfl

theorem pushBack_pres {l : SList} {p : Pool} {v : Nat} (inv : AInv l.alloc (outOf l)) :
    ∃ l1 p1 i, pushBack l p v = some (l1, p1) ∧
      l1.elems = l.elems ++ [{ val := v, slab := i, owner := l.ident }] ∧
      l1.ident = l.ident ∧
      AInv l1.alloc (outOf l1) ∧ p1.inuseItems = p.inuseItems + 1 := by
  obtain ⟨a1, p1, i, hsome, hinv, hinuse, _, _, _⟩ := allocslot_pres inv
  refine ⟨{ l with alloc := a1, elems := l.elems ++ [{ val := v, slab := i, owner := l.ident }] }, p1, i, ?_, rfl, rfl, ?_, hinuse⟩
  · rw [pushBack, hsome]
  · refine AInv_congr hinv (fun j => ?_)
    show countId (i :: outOf l) j =
      countId ((l.elems ++ [({ val := v, slab := i, owner := l.ident } : SNode)]).map
        (fun x : SNode => x.slab)) j
    rw [List.map_append, List.map_cons]
    have hps : ({ val := v, slab := i, owner := l.ident } : SNode).slab = i := rfl
    rw [hps, countId_cons_eq_append]
    rfl

theorem insertAt_pres {l : SList} {p : Pool} {v : Nat} {pre post : List SNode}
    (inv : AInv l.alloc (outOf l)) (hsplit : l.elems = pre ++ post) :
    ∃ l1 p1 i, insertAt l p pre.length v = some (l1, p1) ∧
      l1.elems = pre ++ { val := v, slab := i, owner := l.ident } :: post ∧
      l1.ident = l.ident ∧
      AInv l1.alloc (outOf l1) ∧ p1.inuseItems = p.inuseItems + 1 := by
  obtain ⟨a1, p1, i, hsome, hinv, hinuse, _, _, _⟩ := allocslot_pres inv
  refine ⟨{ l with alloc := a1, elems := l.elems.take pre.length ++ { val := v, slab := i, owner := l.ident } :: l.elems.drop pre.length }, p1, i, ?_, ?_, rfl, ?_, hinuse⟩
  · rw [insertAt, hsome]
  · show l.elems.take pre.length ++ _ :: l.elems.drop pre.length = _
    rw [hsplit, take_len_append, drop_len_append]
  · refine AInv_congr hinv (fun j => ?_)
    show countId (i :: outOf l) j =
      countId ((l.elems.take pre.length ++
        ({ val := v, slab := i, owner := l.ident } : SNode) :: l.elems.drop pre.length).map
        (fun x : SNode => x.slab)) j
    rw [hsplit, take_len_append, drop_len_append, List.map_append, List.map_cons]
    have hps : ({ val := v, slab := i, owner := l.ident } : SNode).slab = i := rfl
    rw [hps]
    have houl : outOf l = pre.map (fun x : SNode => x.slab) ++ post.map (fun x : SNode => x.slab) := by
      show l.elems.map (fun x : SNode => x.slab) = _
      rw [hsplit, List.map_append]
    rw [houl, countId, countId_append, countId_append, countId]
    omega

theorem eraseFirst_pres {l : SList} {p : Pool} {n : SNode} {rest : List SNode}
    (inv : AInv l.alloc (outOf l)) (hl : l.elems = n :: rest) :
    (eraseFirst l p).1.elems = rest ∧ (eraseFirst l p).1.ident = l.ident ∧
    AInv (eraseFirst l p).1.alloc (outOf (eraseFirst l p).1) ∧
    (eraseFirst l p).2.inuseItems = p.inuseItems - 1 := by
  have hout : outOf l = n.slab :: rest.map (fun x => x.slab) := by
    show l.elems.map (fun x => x.slab) = _
    rw [hl, List.map_cons]
  have hcnt : 1 ≤ countId (outOf l) n.slab := by
    rw [hout, countId, if_pos rfl]
    omega
  have heq : deallocate l.alloc p n.slab =
      ((deallocate l.alloc p n.slab).1, (deallocate l.alloc p n.slab).2) := rfl
  obtain ⟨hinv, hinuse, _, _, _, _⟩ := dealloc_pres inv hcnt heq
  have herase : eraseId (outOf l) n.slab = rest.map (fun x => x.slab) := by
    rw [hout, eraseId, if_pos rfl]
  rw [herase] at hinv
  rw [eraseFirst, hl]
  exact ⟨rfl, rfl, hinv, hinuse⟩

theorem spliceLoop_go : ∀ (src : List SNode) (b c : SList) (p : Pool) (pre post : List SNode),
    b.elems = src → c.elems = pre ++ post → AInv c.alloc (outOf c) →
    ∃ c1 b1 p1, spliceLoop c b p pre.length src = some (c1, b1, p1) ∧
      b1.elems = [] ∧ b1.ident = b.ident ∧ c1.ident = c.ident ∧
      (∃ mid : List SNode, c1.elems = pre ++ mid ++ post ∧
        mid.map (fun x => x.val) = src.map (fun x => x.val) ∧
        (∀ x ∈ mid, x.owner = c.ident)) ∧
      AInv c1.alloc (outOf c1) := by
  intro src
  induction src with
  | nil =>
    intro b c p pre post hb hsplit hinv
    rw [spliceLoop]
    exact ⟨c, b, p, rfl, hb, rfl, rfl, ⟨[], by simp [hsplit], rfl,
      fun x hx => absurd hx (List.not_mem_nil x)⟩, hinv⟩
  | cons n rest ih =>
    intro b c p pre post hb hsplit hinv
    rw [spliceLoop]
    obtain ⟨c1, p1, i, hsome, helems, hident, hinv1, _⟩ :=
      @insertAt_pres c p n.val pre post hinv hsplit
    rw [hsome]
    have hbe : (eraseFirst b p1).1.elems = rest := by
      rw [eraseFirst, hb]
    have hbi : (eraseFirst b p1).1.ident = b.ident := by
      rw [eraseFirst, hb]
    have hsplit1 : c1.elems = (pre ++ [({ val := n.val, slab := i, owner := c.ident } : SNode)]) ++ post := by
      rw [helems, List.append_assoc, List.singleton_append]
    have hlen1 : (pre ++ [({ val := n.val, slab := i, owner := c.ident } : SNode)]).length =
        pre.length + 1 := by
      rw [List.length_append, List.length_singleton]
    obtain ⟨c2, b2, p2, hrec, hb2, hb2i, hc2i, ⟨mid, hmid, hmval, hmown⟩, hinv2⟩ :=
      ih (eraseFirst b p1).1 c1 (eraseFirst b p1).2
        (pre ++ [({ val := n.val, slab := i, owner := c.ident } : SNode)]) post hbe hsplit1 hinv1
    rw [hlen1] at hrec
    refine ⟨c2, b2, p2, hrec, hb2, ?_, ?_, ?_, hinv2⟩
    · rw [hb2i, hbi]
    · rw [hc2i, hident]
    · refine ⟨({ val := n.val, slab := i, owner := c.ident } : SNode) :: mid, ?_, ?_, ?_⟩
      · rw [hmid]
        simp [List.append_assoc]
      · rw [List.map_cons, hmval]
        rfl
      · intro x hx
        rcases List.mem_cons.mp hx with rfl | hx
        · rfl
        · rw [hident] at hmown
          exact hmown x hx

theorem swapLoop_go : ∀ (src : List SNode) (b c : SList) (p : Pool),
    b.elems = src → AInv c.alloc (outOf c) → AInv b.alloc (outOf b) →
    p.inuseItems = c.elems.length + b.elems.length →
    ∃ c1 b1 p1 tr, swapLoop c b p src = some (c1, b1, p1, tr) ∧
      b1.elems = [] ∧
      c1.elems.map (fun x => x.val) =
        c.elems.map (fun x => x.val) ++ src.map (fun x => x.val) ∧
      p1.inuseItems = c.elems.length + b.elems.length ∧
      (∀ pr ∈ tr, pr.1.inuseItems = c.elems.length + b.elems.length + 1 ∧
        pr.2.inuseItems = c.elems.length + b.elems.length) := by
  intro src
  induction src with
  | nil =>
    intro b c p hb hinvc hinvb hin
    rw [swapLoop]
    refine ⟨c, b, p, [], rfl, hb, ?_, hin, fun pr hpr => absurd hpr (List.not_mem_nil pr)⟩
    simp
  | cons n rest ih =>
    intro b c p hb hinvc hinvb hin
    rw [swapLoop]
    obtain ⟨c1, p1, i, hsome, helems, hident, hinv1, hinuse1⟩ :=
      @pushBack_pres c p n.val hinvc
    rw [hsome]
    obtain ⟨hbe, hbi, hinvb1, hinuse2⟩ := eraseFirst_pres hinvb hb
    have hlen1 : c1.elems.length = c.elems.length + 1 := by
      rw [helems, List.length_append, List.length_singleton]
    have hin2 : (eraseFirst b p1).2.inuseItems =
        c1.elems.length + (eraseFirst b p1).1.elems.length := by
      rw [hinuse2, hinuse1, hin, hbe, hlen1, hb]
      rw [List.length_cons]
      omega
    obtain ⟨c2, b2, p2, tr, hrec, hb2, hc2v, hin3, htr⟩ :=
      ih (eraseFirst b p1).1 c1 (eraseFirst b p1).2 hbe hinv1 hinvb1 hin2
    have hlentot : c1.elems.length + (eraseFirst b p1).1.elems.length =
        c.elems.length + b.elems.length := by
      rw [hbe, hlen1, hb, List.length_cons]
      omega
    have hfinal : (match swapLoop c1 (eraseFirst b p1).1 (eraseFirst b p1).2 rest with
        | none => none
        | some r => some (r.1, r.2.1, r.2.2.1, (p1, (eraseFirst b p1).2) :: r.2.2.2)) =
        some (c2, b2, p2, (p1, (eraseFirst b p1).2) :: tr) := by
      rw [hrec]
    refine ⟨c2, b2, p2, (p1, (eraseFirst b p1).2) :: tr, hfinal, hb2, ?_, ?_, ?_⟩
    · rw [hc2v, helems]
      simp [List.append_assoc]
    · rw [hin3, hlentot]
    · intro pr hpr
      rcases List.mem_cons.mp hpr with rfl | hpr
      · constructor
        · show p1.inuseItems = _
          rw [hinuse1, hin]
        · show (eraseFirst b p1).2.inuseItems = _
          rw [hin2, hlentot]
      · have := htr pr hpr
        rw [hlentot] at this
        exact this

theorem clearLoop_elems : ∀ (src : List SNode) (l : SList) (p : Pool),
    l.elems = src → (clearLoop l p src).1.elems = [] := by
  intro src
  induction src with
  | nil =>
    intro l p hl
    rw [clearLoop]
    exact hl
  | cons n rest ih =>
    intro l p hl
    rw [clearLoop]
    refine ih (eraseFirst l p).1 (eraseFirst l p).2 ?_
    rw [eraseFirst, hl]

/-- C2 (confirmed).  For every n and every allocator state (with the
model's id-freshness side condition): if freeSlotCount < n, reserve(n)
makes exactly one heap request — pool slab count rises by one and exactly
n - freeSlotCount slots are allocated — adding a single slab of capacity
n - freeSlotCount, after which the allocator free-slot count equals n
(hence is at least n); if freeSlotCount >= n, reserve(n) changes nothing;
and a second reserve(n) immediately after a reserve(n) is a no-op. -/
theorem sc_C2 {a : AllocState} {p : Pool} {n : Nat}
    (hfresh : ∀ s ∈ a.slabs, s.id < a.nextId) :
    (a.freeSlotCount < n →
      (reserveOp a p n).1.freeSlotCount = n ∧
      n ≤ (reserveOp a p n).1.freeSlotCount ∧
      (reserveOp a p n).2.slabs = p.slabs + 1 ∧
      (reserveOp a p n).2.allocatedItems = p.allocatedItems + (n - a.freeSlotCount) ∧
      (reserveOp a p n).1.slabs = { id := a.nextId, isStack := false, size := n - a.freeSlotCount, freeSlots := n - a.freeSlotCount } :: a.slabs) ∧
    (n ≤ a.freeSlotCount → reserveOp a p n = (a, p)) ∧
    reserveOp (reserveOp a p n).1 (reserveOp a p n).2 n = reserveOp a p n := by
  by_cases h : a.freeSlotCount < n
  · have hr : reserveOp a p n =
        ({ a with slabs := { id := a.nextId, isStack := false, size := n - a.freeSlotCount, freeSlots := n - a.freeSlotCount } :: a.slabs, freeList := a.nextId :: a.freeList, freeSlotCount := a.freeSlotCount + (n - a.freeSlotCount), nextId := a.nextId + 1 },
         { slabs := p.slabs + 1, allocatedItems := p.allocatedItems + (n - a.freeSlotCount), freeItems := p.freeItems + (n - a.freeSlotCount), inuseItems := p.inuseItems }) := by
      rw [reserveOp, if_pos h]
      exact addSlab_spec hfresh (by omega)
    refine ⟨fun _ => ?_, fun hc => absurd hc (by omega), ?_⟩
    · rw [hr]
      refine ⟨by show a.freeSlotCount + (n - a.freeSlotCount) = n; omega,
        by show n ≤ a.freeSlotCount + (n - a.freeSlotCount); omega, rfl, rfl, rfl⟩
    · rw [hr]
      rw [reserveOp, if_neg (by show ¬ a.freeSlotCount + (n - a.freeSlotCount) < n; omega)]
  · have hr : reserveOp a p n = (a, p) := by
      rw [reserveOp, if_neg h]
    refine ⟨fun hc => absurd hc h, fun _ => hr, ?_⟩
    rw [hr]
    exact hr

/-- C2 witness: the theorem applied to a freshly constructed allocator
(stackSize 1, heapSize 2) and n = 3. -/
theorem sc_C2_witness :
    (((mkAllocator 1 2 pool0).1.freeSlotCount < 3 →
      (reserveOp (mkAllocator 1 2 pool0).1 (mkAllocator 1 2 pool0).2 3).1.freeSlotCount = 3 ∧
      3 ≤ (reserveOp (mkAllocator 1 2 pool0).1 (mkAllocator 1 2 pool0).2 3).1.freeSlotCount ∧
      (reserveOp (mkAllocator 1 2 pool0).1 (mkAllocator 1 2 pool0).2 3).2.slabs = (mkAllocator 1 2 pool0).2.slabs + 1 ∧
      (reserveOp (mkAllocator 1 2 pool0).1 (mkAllocator 1 2 pool0).2 3).2.allocatedItems = (mkAllocator 1 2 pool0).2.allocatedItems + (3 - (mkAllocator 1 2 pool0).1.freeSlotCount) ∧
      (reserveOp (mkAllocator 1 2 pool0).1 (mkAllocator 1 2 pool0).2 3).1.slabs = { id := (mkAllocator 1 2 pool0).1.nextId, isStack := false, size := 3 - (mkAllocator 1 2 pool0).1.freeSlotCount, freeSlots := 3 - (mkAllocator 1 2 pool0).1.freeSlotCount } :: (mkAllocator 1 2 pool0).1.slabs) ∧
    (3 ≤ (mkAllocator 1 2 pool0).1.freeSlotCount →
      reserveOp (mkAllocator 1 2 pool0).1 (mkAllocator 1 2 pool0).2 3 = ((mkAllocator 1 2 pool0).1, (mkAllocator 1 2 pool0).2)) ∧
    reserveOp (reserveOp (mkAllocator 1 2 pool0).1 (mkAllocator 1 2 pool0).2 3).1 (reserveOp (mkAllocator 1 2 pool0).1 (mkAllocator 1 2 pool0).2 3).2 3 = reserveOp (mkAllocator 1 2 pool0).1 (mkAllocator 1 2 pool0).2 3) :=
  sc_C2 (by decide)

/-- C7 counterexample.  The claim states addSlab(c) increases the
allocated-slot counter (allocSlotCount) by c: on a fresh allocator with
stackSize 1 (allocSlotCount = 1), addSlab(2) leaves allocSlotCount at 1,
not 3 — allocSlotCount is written only by the constructor.  Also, for
capacity 0 (degenerate), the new slab is never linked: the free-slab list
still holds only the in-stack slab. -/
theorem sc_C7_cex :
    (addSlab (mkAllocator 1 2 pool0).1 (mkAllocator 1 2 pool0).2 2).1.allocSlotCount = 1 ∧
    ¬ (addSlab (mkAllocator 1 2 pool0).1 (mkAllocator 1 2 pool0).2 2).1.allocSlotCount = 1 + 2 ∧
    (addSlab (mkAllocator 1 2 pool0).1 (mkAllocator 1 2 pool0).2 0).1.freeList = [0] := by
  decide

/-- C7 (amended).  For every capacity c >= 1 (and the model's id-freshness
side condition), addSlab(c) obtains a new heap slab from the mempool
(slab count + 1, allocated items + c), pushes all c slots onto the slab's
free list (the new slab has freeSlots = c and the pool gains c free
items), links the slab at the head of the free-slab list, and adds c to
the allocator's free-slot counter; allocSlotCount is NOT changed (it is
set only at construction). -/
theorem sc_C7 {a : AllocState} {p : Pool} {c : Nat}
    (hfresh : ∀ s ∈ a.slabs, s.id < a.nextId) (hc : 1 ≤ c) :
    (addSlab a p c).1.slabs = { id := a.nextId, isStack := false, size := c, freeSlots := c } :: a.slabs ∧
    (addSlab a p c).1.freeList = a.nextId :: a.freeList ∧
    (addSlab a p c).1.freeSlotCount = a.freeSlotCount + c ∧
    (addSlab a p c).1.allocSlotCount = a.allocSlotCount ∧
    (addSlab a p c).2.slabs = p.slabs + 1 ∧
    (addSlab a p c).2.allocatedItems = p.allocatedItems + c ∧
    (addSlab a p c).2.freeItems = p.freeItems + c ∧
    (addSlab a p c).2.inuseItems = p.inuseItems := by
  rw [addSlab_spec hfresh hc]
  exact ⟨rfl, rfl, rfl, rfl, rfl, rfl, rfl, rfl⟩

/-- C7 witness: the amended theorem applied to a fresh allocator
(stackSize 1, heapSize 2) and capacity 2. -/
theorem sc_C7_witness :
    ((addSlab (mkAllocator 1 2 pool0).1 (mkAllocator 1 2 pool0).2 2).1.slabs = { id := (mkAllocator 1 2 pool0).1.nextId, isStack := false, size := 2, freeSlots := 2 } :: (mkAllocator 1 2 pool0).1.slabs ∧
    (addSlab (mkAllocator 1 2 pool0).1 (mkAllocator 1 2 pool0).2 2).1.freeList = (mkAllocator 1 2 pool0).1.nextId :: (mkAllocator 1 2 pool0).1.freeList ∧
    (addSlab (mkAllocator 1 2 pool0).1 (mkAllocator 1 2 pool0).2 2).1.freeSlotCount = (mkAllocator 1 2 pool0).1.freeSlotCount + 2 ∧
    (addSlab (mkAllocator 1 2 pool0).1 (mkAllocator 1 2 pool0).2 2).1.allocSlotCount = (mkAllocator 1 2 pool0).1.allocSlotCount ∧
    (addSlab (mkAllocator 1 2 pool0).1 (mkAllocator 1 2 pool0).2 2).2.slabs = (mkAllocator 1 2 pool0).2.slabs + 1 ∧
    (addSlab (mkAllocator 1 2 pool0).1 (mkAllocator 1 2 pool0).2 2).2.allocatedItems = (mkAllocator 1 2 pool0).2.allocatedItems + 2 ∧
    (addSlab (mkAllocator 1 2 pool0).1 (mkAllocator 1 2 pool0).2 2).2.freeItems = (mkAllocator 1 2 pool0).2.freeItems + 2 ∧
    (addSlab (mkAllocator 1 2 pool0).1 (mkAllocator 1 2 pool0).2 2).2.inuseItems = (mkAllocator 1 2 pool0).2.inuseItems) :=
  sc_C7 (by decide) (by decide)

/-- C9 (confirmed).  Self-copy-assignment of a slab_list (L = L) and of a
slab_vector (V = V) empties the container instead of leaving it
unchanged: operator= clears the destination first, and the element-wise
push_back loop then walks the now-cleared source (the same object), so
all prior contents are lost. -/
theorem sc_C9 {l : SList} {p : Pool} {v : SVec}
    (hl : l.elems ≠ []) (hv : v.elems ≠ []) :
    (listSelfAssign l p).1.elems = [] ∧ (vecSelfAssign v).elems = [] ∧
    ¬ (listSelfAssign l p).1.elems = l.elems ∧
    ¬ (vecSelfAssign v).elems = v.elems := by
  have h1 : (listSelfAssign l p).1.elems = [] :=
    clearLoop_elems l.elems l p rfl
  have h2 : (vecSelfAssign v).elems = [] := rfl
  refine ⟨h1, h2, ?_, ?_⟩
  · rw [h1]
    exact fun hc => hl hc.symm
  · rw [h2]
    exact fun hc => hv hc.symm

/-- C9 witness: a one-element list on a fresh allocator and a one-element
vector. -/
theorem sc_C9_witness :
    ((listSelfAssign { ident := 0, alloc := (mkAllocator 1 2 pool0).1, elems := [{ val := 7, slab := 0, owner := 0 }] } pool0).1.elems = [] ∧
    (vecSelfAssign { elems := [5], cap := 4 }).elems = [] ∧
    ¬ (listSelfAssign { ident := 0, alloc := (mkAllocator 1 2 pool0).1, elems := [{ val := 7, slab := 0, owner := 0 }] } pool0).1.elems = [{ val := 7, slab := 0, owner := 0 }] ∧
    ¬ (vecSelfAssign { elems := [5], cap := 4 }).elems = [5]) :=
  sc_C9 (by decide) (by decide)

/-- C10 (confirmed).  slab_vector_allocator::allocate returns the single
inline array for every request of at most stackSize elements, regardless
of the allocator state (so regardless of any outstanding allocation: the
allocator keeps no bookkeeping), and deallocate of the inline pointer is
a no-op for every size argument. -/
theorem sc_C10 {a : VAllocState} {p q : Pool} {c1 c2 s : Nat}
    (h1 : c1 ≤ a.stackSize) (h2 : c2 ≤ a.stackSize) :
    (vallocate a p c1).2.2 = VPtr.stackSlot ∧
    (vallocate a q c2).2.2 = VPtr.stackSlot ∧
    (vallocate a p c1).2.2 = (vallocate a q c2).2.2 ∧
    (vallocate a p c1).1 = a ∧ (vallocate a p c1).2.1 = p ∧
    vdeallocate a p VPtr.stackSlot s = p := by
  rw [vallocate, if_pos h1, vallocate, if_pos h2]
  exact ⟨rfl, rfl, rfl, rfl, rfl, rfl⟩

/-- C10 witness: stackSize 4, two requests of 3 and 4 elements, and a
deallocate of the inline pointer with size argument 9. -/
theorem sc_C10_witness :
    ((vallocate { stackSize := 4, nextId := 0 } pool0 3).2.2 = VPtr.stackSlot ∧
    (vallocate { stackSize := 4, nextId := 0 } { slabs := 1, allocatedItems := 2, freeItems := 3, inuseItems := 4 } 4).2.2 = VPtr.stackSlot ∧
    (vallocate { stackSize := 4, nextId := 0 } pool0 3).2.2 = (vallocate { stackSize := 4, nextId := 0 } { slabs := 1, allocatedItems := 2, freeItems := 3, inuseItems := 4 } 4).2.2 ∧
    (vallocate { stackSize := 4, nextId := 0 } pool0 3).1 = { stackSize := 4, nextId := 0 } ∧
    (vallocate { stackSize := 4, nextId := 0 } pool0 3).2.1 = pool0 ∧
    vdeallocate { stackSize := 4, nextId := 0 } pool0 VPtr.stackSlot 9 = pool0) :=
  sc_C10 (by decide) (by decide)

/-- C1 counterexample.  The claim exempts the inline (stack) slab from
unlinking: it should remain on the free-slab list even with freeSlots =
0.  In the code, allocslot unlinks any slab whose freeSlots reaches 0,
with no exemption: on a fresh allocator with stackSize 1 (the inline slab
is the only slab, linked, freeSlots = 1), one allocate leaves the inline
slab with freeSlots = 0 and the free-slab list empty — the inline slab
has been unlinked. -/
theorem sc_C1_cex :
    allocate (mkAllocator 1 2 pool0).1 (mkAllocator 1 2 pool0).2 1 =
      some ({ stackSize := 1, heapSize := 2, slabs := [{ id := 0, isStack := true, size := 1, freeSlots := 0 }], freeList := [], freeSlotCount := 0, allocSlotCount := 1, nextId := 1 },
            { slabs := 1, allocatedItems := 1, freeItems := 0, inuseItems := 1 }, 0) := by
  decide

/-- C1 (amended).  In every reachable allocator state, a slab is linked on
the free-slab list iff its freeSlots count is at least 1 — with no
exception: the inline (stack) slab is unlinked like any other slab when
it runs dry, and relinked when one of its slots is freed. -/
theorem sc_C1 {allowR : Bool} {ss hs : Nat} {a : AllocState} {p : Pool} {out : List Nat}
    (h : Reach allowR ss hs a p out) :
    ∀ s ∈ a.slabs, (s.id ∈ a.freeList ↔ 1 ≤ s.freeSlots) :=
  (reach_inv h).1.mem_iff

/-- C1 witness: the freshly constructed allocator (stackSize 1, heapSize
2) at its inline slab. -/
theorem sc_C1_witness :
    (({ id := 0, isStack := true, size := 1, freeSlots := 1 } : Slab).id ∈
      (mkAllocator 1 2 pool0).1.freeList ↔
     1 ≤ ({ id := 0, isStack := true, size := 1, freeSlots := 1 } : Slab).freeSlots) :=
  sc_C1 (Reach.init false 1 2 (by decide)) _ (by decide)

/-- C3 (confirmed).  For a default-configured container (no reserve call;
heapSize >= 1 as guaranteed by the default heap-size computation), after
any sequence of allocates and deallocates, deallocating every outstanding
node (the allocator-level effect of container.clear()) leaves the pool
with inuse_items = 0 and releases every heap slab: the only slab
remaining in the allocator is the inline slab, and the pool's slab count
is back to the single inline slab.  The mempool counters are modelled
from the spec. -/
theorem sc_C3 {ss hs : Nat} {a : AllocState} {p : Pool} {out : List Nat}
    (h : Reach false ss hs a p out) :
    (clearAll a p out).2.inuseItems = 0 ∧
    (∀ s ∈ (clearAll a p out).1.slabs, s.isStack = true) ∧
    (clearAll a p out).1.slabs.length = 1 ∧
    (clearAll a p out).2.slabs = 1 := by
  obtain ⟨inv, hin, hps, hnrf⟩ := reach_inv h
  obtain ⟨inv2, hnr2, hin2, hps2⟩ := clearAll_spec out inv (hnrf rfl) hin hps
  have hall : ∀ s ∈ (clearAll a p out).1.slabs, s.isStack = true := by
    intro s hs2
    rcases Bool.eq_false_or_eq_true s.isStack with h2 | h2
    · exact h2
    · have := hnr2 s hs2 h2
      rw [countId] at this
      omega
  have hz : ∀ s ∈ (clearAll a p out).1.slabs, s.id = 0 := by
    intro s hs2
    exact (inv2.stack_iff s hs2).mp (hall s hs2)
  have hlen : (clearAll a p out).1.slabs.length = 1 :=
    length_eq_one_of_all_zero inv2.ids_nodup hz inv2.stack_mem
  refine ⟨hin2, hall, hlen, ?_⟩
  rw [hps2, hlen]

/-- C3 witness: an allocator (stackSize 1, heapSize 2) after one allocate,
clearing its single outstanding node. -/
theorem sc_C3_witness :
    ((clearAll { stackSize := 1, heapSize := 2, slabs := [{ id := 0, isStack := true, size := 1, freeSlots := 0 }], freeList := [], freeSlotCount := 0, allocSlotCount := 1, nextId := 1 } { slabs := 1, allocatedItems := 1, freeItems := 0, inuseItems := 1 } [0]).2.inuseItems = 0 ∧
    (∀ s ∈ (clearAll { stackSize := 1, heapSize := 2, slabs := [{ id := 0, isStack := true, size := 1, freeSlots := 0 }], freeList := [], freeSlotCount := 0, allocSlotCount := 1, nextId := 1 } { slabs := 1, allocatedItems := 1, freeItems := 0, inuseItems := 1 } [0]).1.slabs, s.isStack = true) ∧
    (clearAll { stackSize := 1, heapSize := 2, slabs := [{ id := 0, isStack := true, size := 1, freeSlots := 0 }], freeList := [], freeSlotCount := 0, allocSlotCount := 1, nextId := 1 } { slabs := 1, allocatedItems := 1, freeItems := 0, inuseItems := 1 } [0]).1.slabs.length = 1 ∧
    (clearAll { stackSize := 1, heapSize := 2, slabs := [{ id := 0, isStack := true, size := 1, freeSlots := 0 }], freeList := [], freeSlotCount := 0, allocSlotCount := 1, nextId := 1 } { slabs := 1, allocatedItems := 1, freeItems := 0, inuseItems := 1 } [0]).2.slabs = 1) :=
  sc_C3 (Reach.alloc (Reach.init false 1 2 (by decide)) (by decide))

/-- C4 (confirmed).  In every reachable allocator state: reserve and
allocate never release a slab (every slab id survives them); a slab is
removed only by a deallocate that makes it entirely free — the removed
slab is the one the freed slot lives in, it is a heap slab (never the
inline slab, which is still present afterwards), its freeSlots reached
its slabSize with this free, it is unlinked from the free-slab list, the
allocator free-slot count drops by slabSize (net of this call's
increment), and the slab is handed back to the mempool (slab_delete). -/
theorem sc_C4 {allowR : Bool} {ss hs : Nat} {a : AllocState} {p : Pool} {out : List Nat}
    (h : Reach allowR ss hs a p out) :
    (∀ n r, reserveOp a p n = r → ∀ t ∈ a.slabs, ∃ t1, t1 ∈ r.1.slabs ∧ t1.id = t.id) ∧
    (∀ r, allocate a p 1 = some r → ∀ t ∈ a.slabs, ∃ t1, t1 ∈ r.1.slabs ∧ t1.id = t.id) ∧
    (∀ i r, 1 ≤ countId out i → deallocate a p i = r →
      (∃ t1, t1 ∈ r.1.slabs ∧ t1.isStack = true) ∧
      (∀ t ∈ a.slabs, (¬ ∃ t1, t1 ∈ r.1.slabs ∧ t1.id = t.id) →
        t.id = i ∧ t.isStack = false ∧ t.freeSlots + 1 = t.size ∧
        (t.id ∈ r.1.freeList → False) ∧
        r.1.freeSlotCount + t.size = a.freeSlotCount + 1 ∧
        r.2 = (p.itemFree).slabDelete t.size)) := by
  have inv := (reach_inv h).1
  refine ⟨?_, ?_, ?_⟩
  · intro n r heq t ht
    obtain ⟨_, _, _, hpres⟩ := reserve_pres inv (show reserveOp a p n = (r.1, r.2) from heq)
    obtain ⟨t1, ht1, hid, _, _⟩ := hpres t ht
    exact ⟨t1, ht1, hid⟩
  · intro r heq t ht
    obtain ⟨a1, p1, i, hsome, _, _, _, _, hpres⟩ := allocslot_pres inv
    rw [allocate, if_pos rfl, hsome] at heq
    injection heq with heq
    subst heq
    obtain ⟨t1, ht1, hid, _, _⟩ := hpres t ht
    exact ⟨t1, ht1, hid⟩
  · intro i r hcnt heq
    obtain ⟨_, _, _, _, hstack, hchar⟩ :=
      dealloc_pres inv hcnt (show deallocate a p i = (r.1, r.2) from heq)
    exact ⟨hstack, hchar⟩

/-- C4 witness: the fresh allocator (stackSize 1, heapSize 2), checking
the reserve clause at n = 3 for its inline slab. -/
theorem sc_C4_witness :
    ∃ t1, t1 ∈ (reserveOp (mkAllocator 1 2 pool0).1 (mkAllocator 1 2 pool0).2 3).1.slabs ∧
      t1.id = ({ id := 0, isStack := true, size := 1, freeSlots := 1 } : Slab).id :=
  (sc_C4 (Reach.init false 1 2 (by decide))).1 3
    (reserveOp (mkAllocator 1 2 pool0).1 (mkAllocator 1 2 pool0).2 3) rfl
    { id := 0, isStack := true, size := 1, freeSlots := 1 } (by decide)

/-- C5 (confirmed).  Full-range splice c.splice(pos, b, b.begin(),
b.end()) copies each source node in order into c at pos and erases it
from b: afterwards b is empty, c holds the source values in their
original relative order at position pos (between its former prefix and
suffix), and every live node of c was allocated by c's own allocator (its
owner tag is c, and by the allocator invariant its slab back pointer
names a slab of c's allocator) — no node crosses allocators. -/
theorem sc_C5 {b c : SList} {p : Pool} {pos : Nat}
    (hinv : AInv c.alloc (outOf c)) (hpos : pos ≤ c.elems.length)
    (hown : ∀ x ∈ c.elems, x.owner = c.ident) :
    ∃ c1 b1 p1, spliceAll c b p pos = some (c1, b1, p1) ∧
      b1.elems = [] ∧ b1.ident = b.ident ∧ c1.ident = c.ident ∧
      (∃ mid, c1.elems = c.elems.take pos ++ mid ++ c.elems.drop pos ∧
        mid.map (fun x => x.val) = b.elems.map (fun x => x.val)) ∧
      (∀ x ∈ c1.elems, x.owner = c.ident) ∧
      AInv c1.alloc (outOf c1) := by
  have hsplit : c.elems = c.elems.take pos ++ c.elems.drop pos :=
    (List.take_append_drop pos c.elems).symm
  have hlen : (c.elems.take pos).length = pos := by
    rw [List.length_take]
    exact Nat.min_eq_left hpos
  obtain ⟨c1, b1, p1, hrec, hb1, hb1i, hc1i, ⟨mid, hmid, hmval, hmown⟩, hinv1⟩ :=
    spliceLoop_go b.elems b c p (c.elems.take pos) (c.elems.drop pos) rfl hsplit hinv
  rw [hlen] at hrec
  refine ⟨c1, b1, p1, hrec, hb1, hb1i, hc1i, ⟨mid, hmid, hmval⟩, ?_, hinv1⟩
  intro x hx
  rw [hmid] at hx
  rcases List.mem_append.mp hx with hx | hx
  · rcases List.mem_append.mp hx with hx | hx
    · exact hown x (List.take_subset pos c.elems hx)
    · exact hmown x hx
  · exact hown x (List.drop_subset pos c.elems hx)

/-- C5 witness: splicing a one-element list into an empty, freshly
constructed list at position 0. -/
theorem sc_C5_witness :
    ∃ c1 b1 p1, spliceAll (mkList 0 1 2 pool0).1 { ident := 1, alloc := { stackSize := 1, heapSize := 2, slabs := [{ id := 0, isStack := true, size := 1, freeSlots := 0 }], freeList := [], freeSlotCount := 0, allocSlotCount := 1, nextId := 1 }, elems := [{ val := 7, slab := 0, owner := 1 }] } { slabs := 2, allocatedItems := 2, freeItems := 1, inuseItems := 1 } 0 = some (c1, b1, p1) ∧
      b1.elems = [] ∧ b1.ident = 1 ∧ c1.ident = (mkList 0 1 2 pool0).1.ident ∧
      (∃ mid, c1.elems = (mkList 0 1 2 pool0).1.elems.take 0 ++ mid ++ (mkList 0 1 2 pool0).1.elems.drop 0 ∧
        mid.map (fun x => x.val) = [7]) ∧
      (∀ x ∈ c1.elems, x.owner = (mkList 0 1 2 pool0).1.ident) ∧
      AInv c1.alloc (outOf c1) :=
  sc_C5 ((mkAllocator_inv 1 2 (by decide) pool0).1) (by decide)
    (fun x hx => absurd hx (List.not_mem_nil x))

/-- C6 counterexample.  The claim says inuse_items equals i at every
intermediate step of c.swap(b).  Take i = 1: c freshly constructed and
empty, b holding one element (val 7, one live node, pool inuse_items =
1).  Inside the swap's single iteration, after the push_back into c and
before the erase from b, the pool records 2 live nodes: the trace's first
pool has inuse_items = 2, not 1. -/
theorem sc_C6_cex :
    swapFromEmpty (mkList 0 1 2 pool0).1
      { ident := 1, alloc := { stackSize := 1, heapSize := 2, slabs := [{ id := 0, isStack := true, size := 1, freeSlots := 0 }], freeList := [], freeSlotCount := 0, allocSlotCount := 1, nextId := 1 }, elems := [{ val := 7, slab := 0, owner := 1 }] }
      { slabs := 2, allocatedItems := 2, freeItems := 1, inuseItems := 1 } =
    some ({ ident := 0, alloc := { stackSize := 1, heapSize := 2, slabs := [{ id := 0, isStack := true, size := 1, freeSlots := 0 }], freeList := [], freeSlotCount := 0, allocSlotCount := 1, nextId := 1 }, elems := [{ val := 7, slab := 0, owner := 0 }] },
          { ident := 1, alloc := { stackSize := 1, heapSize := 2, slabs := [{ id := 0, isStack := true, size := 1, freeSlots := 1 }], freeList := [0], freeSlotCount := 1, allocSlotCount := 1, nextId := 1 }, elems := [] },
          { slabs := 2, allocatedItems := 2, freeItems := 1, inuseItems := 1 },
          [({ slabs := 2, allocatedItems := 2, freeItems := 0, inuseItems := 2 },
            { slabs := 2, allocatedItems := 2, freeItems := 1, inuseItems := 1 })]) ∧
    ¬ ({ slabs := 2, allocatedItems := 2, freeItems := 0, inuseItems := 2 } : Pool).inuseItems = 1 := by
  decide

/-- C6 (amended).  Swapping a list b of i elements into an empty list c:
on completion b is empty, c holds b's original values in order, and the
pool's inuse_items is i again; but within each iteration there is a
transient of exactly i + 1 live nodes — inuse_items equals i + 1 after
each push_back and returns to i after the following erase, so the
counter equals i at every iteration boundary and never exceeds i + 1
(rather than never exceeding i).  The mempool counters are modelled from
the spec. -/
theorem sc_C6 {b c : SList} {p : Pool}
    (hc : c.elems = []) (hinvc : AInv c.alloc (outOf c)) (hinvb : AInv b.alloc (outOf b))
    (hin : p.inuseItems = b.elems.length) :
    ∃ c1 b1 p1 tr, swapFromEmpty c b p = some (c1, b1, p1, tr) ∧
      b1.elems = [] ∧
      c1.elems.map (fun x => x.val) = b.elems.map (fun x => x.val) ∧
      p1.inuseItems = b.elems.length ∧
      (∀ pr ∈ tr, pr.1.inuseItems = b.elems.length + 1 ∧
        pr.2.inuseItems = b.elems.length) := by
  have hlen0 : c.elems.length = 0 := by
    rw [hc]
    rfl
  obtain ⟨c1, b1, p1, tr, hrec, hb1, hc1v, hin1, htr⟩ :=
    swapLoop_go b.elems b c p rfl hinvc hinvb (by omega)
  refine ⟨c1, b1, p1, tr, hrec, hb1, ?_, by omega, ?_⟩
  · rw [hc1v, hc]
    rfl
  · intro pr hpr
    have := htr pr hpr
    omega

/-- C6 witness: two freshly constructed lists (both empty, i = 0). -/
theorem sc_C6_witness :
    ∃ c1 b1 p1 tr, swapFromEmpty (mkList 0 1 2 pool0).1 (mkList 1 1 2 (mkList 0 1 2 pool0).2).1 (mkList 1 1 2 (mkList 0 1 2 pool0).2).2 = some (c1, b1, p1, tr) ∧
      b1.elems = [] ∧
      c1.elems.map (fun x => x.val) = (mkList 1 1 2 (mkList 0 1 2 pool0).2).1.elems.map (fun x => x.val) ∧
      p1.inuseItems = (mkList 1 1 2 (mkList 0 1 2 pool0).2).1.elems.length ∧
      (∀ pr ∈ tr, pr.1.inuseItems = (mkList 1 1 2 (mkList 0 1 2 pool0).2).1.elems.length + 1 ∧
        pr.2.inuseItems = (mkList 1 1 2 (mkList 0 1 2 pool0).2).1.elems.length) :=
  sc_C6 (by decide) ((mkAllocator_inv 1 2 (by decide) pool0).1)
    ((mkAllocator_inv 1 2 (by decide) (mkList 0 1 2 pool0).2).1) (by decide)

/-- C8 counterexample.  The claim quantifies over every allocator state.
Reachable violation: stackSize 1, heapSize 2, then reserve(3) — the head
of the free-slab list is now an entirely free heap slab of size 2, the
free-slot counter is 3 and the pool holds 2 slabs.  allocate(1) hands a
slot out of that slab; deallocating it makes the slab entirely free
again, so the slab is released: the free-slot counter ends at 1 (not 3)
and the pool slab count at 1 (not 2) — the counters are not restored. -/
theorem sc_C8_cex :
    reserveOp (mkAllocator 1 2 pool0).1 (mkAllocator 1 2 pool0).2 3 =
      ({ stackSize := 1, heapSize := 2, slabs := [{ id := 1, isStack := false, size := 2, freeSlots := 2 }, { id := 0, isStack := true, size := 1, freeSlots := 1 }], freeList := [1, 0], freeSlotCount := 3, allocSlotCount := 1, nextId := 2 },
       { slabs := 2, allocatedItems := 3, freeItems := 3, inuseItems := 0 }) ∧
    allocate { stackSize := 1, heapSize := 2, slabs := [{ id := 1, isStack := false, size := 2, freeSlots := 2 }, { id := 0, isStack := true, size := 1, freeSlots := 1 }], freeList := [1, 0], freeSlotCount := 3, allocSlotCount := 1, nextId := 2 } { slabs := 2, allocatedItems := 3, freeItems := 3, inuseItems := 0 } 1 =
      some ({ stackSize := 1, heapSize := 2, slabs := [{ id := 1, isStack := false, size := 2, freeSlots := 1 }, { id := 0, isStack := true, size := 1, freeSlots := 1 }], freeList := [1, 0], freeSlotCount := 2, allocSlotCount := 1, nextId := 2 },
            { slabs := 2, allocatedItems := 3, freeItems := 2, inuseItems := 1 }, 1) ∧
    deallocate { stackSize := 1, heapSize := 2, slabs := [{ id := 1, isStack := false, size := 2, freeSlots := 1 }, { id := 0, isStack := true, size := 1, freeSlots := 1 }], freeList := [1, 0], freeSlotCount := 2, allocSlotCount := 1, nextId := 2 } { slabs := 2, allocatedItems := 3, freeItems := 2, inuseItems := 1 } 1 =
      ({ stackSize := 1, heapSize := 2, slabs := [{ id := 0, isStack := true, size := 1, freeSlots := 1 }], freeList := [0], freeSlotCount := 1, allocSlotCount := 1, nextId := 2 },
       { slabs := 1, allocatedItems := 1, freeItems := 1, inuseItems := 0 }) ∧
    ¬ (1 : Nat) = 3 ∧ ¬ (1 : Nat) = 2 := by
  decide

theorem allocate_one (a : AllocState) (p : Pool) : allocate a p 1 = allocslot a p := by
  rw [allocate, if_pos rfl]

theorem poolExt {p q : Pool} (h1 : p.slabs = q.slabs) (h2 : p.allocatedItems = q.allocatedItems)
    (h3 : p.freeItems = q.freeItems) (h4 : p.inuseItems = q.inuseItems) : p = q := by
  calc p = ⟨p.slabs, p.allocatedItems, p.freeItems, p.inuseItems⟩ := rfl
    _ = ⟨q.slabs, q.allocatedItems, q.freeItems, q.inuseItems⟩ := by rw [h1, h2, h3, h4]
    _ = q := rfl

/-- C8 (amended).  allocate(1) followed by deallocate of the returned
slot restores the allocator counters (freeSlotCount, allocSlotCount) and
all pool counters — provided the slab at the head of the free-slab list
is not an entirely free heap slab (the state reserve creates).  When the
free-slab list is empty, the round trip adds a heap slab and releases it
again; when the head slab is the inline slab or still has live slots,
the slot goes back where it came from.  The model's pool-counter side
condition freeSlotCount <= freeItems holds in every real pool. -/
theorem sc_C8 {a : AllocState} {p : Pool} {out : List Nat}
    (inv : AInv a out) (hpf : a.freeSlotCount ≤ p.freeItems)
    (hd : ∀ i rest, a.freeList = i :: rest → ∀ s ∈ a.slabs, s.id = i →
      s.isStack = true ∨ s.freeSlots < s.size) :
    ∃ a1 p1 i, allocate a p 1 = some (a1, p1, i) ∧
      (deallocate a1 p1 i).1.freeSlotCount = a.freeSlotCount ∧
      (deallocate a1 p1 i).1.allocSlotCount = a.allocSlotCount ∧
      (deallocate a1 p1 i).2 = p := by
  have hhs := inv.hs_pos
  rcases hfl : a.freeList with _ | ⟨i, rest⟩
  · -- empty free-slab list: a fresh heap slab is added and released again
    have hdel := @freeslot_spec_del
      { a with slabs := { id := a.nextId, isStack := false, size := a.heapSize, freeSlots := a.heapSize - 1 } :: a.slabs, freeList := if a.heapSize - 1 = 0 then [] else [a.nextId], freeSlotCount := a.freeSlotCount + a.heapSize - 1, nextId := a.nextId + 1 }
      { slabs := p.slabs + 1, allocatedItems := p.allocatedItems + a.heapSize, freeItems := p.freeItems + a.heapSize - 1, inuseItems := p.inuseItems + 1 }
      a.nextId
      { id := a.nextId, isStack := false, size := a.heapSize, freeSlots := a.heapSize - 1 }
      (by show findSlab ({ id := a.nextId, isStack := false, size := a.heapSize, freeSlots := a.heapSize - 1 } :: a.slabs) a.nextId = _; rw [findSlab, if_pos rfl])
      (by show a.heapSize - 1 + 1 = a.heapSize; omega)
      rfl
    refine ⟨_, _, _,
      (allocate_one a p).trans (allocslot_spec_nil hfl inv.ids_lt hhs), ?_⟩
    rw [deallocate, hdel]
    refine ⟨?_, rfl, ?_⟩
    · show a.freeSlotCount + a.heapSize - 1 + 1 - a.heapSize = a.freeSlotCount
      omega
    · refine poolExt ?_ ?_ ?_ ?_
      · show p.slabs + 1 - 1 = p.slabs
        omega
      · show p.allocatedItems + a.heapSize - a.heapSize = p.allocatedItems
        omega
      · show p.freeItems + a.heapSize - 1 + 1 - a.heapSize = p.freeItems
        omega
      · show p.inuseItems + 1 - 1 = p.inuseItems
        omega
  · -- nonempty free-slab list: the slot comes from the head slab
    obtain ⟨s, hsmem, hsid⟩ := inv.flist_mem i (by rw [hfl]; exact List.mem_cons_self i rest)
    have hfind : findSlab a.slabs i = some s := findSlab_of_mem inv.ids_nodup hsmem hsid
    have hfs : 1 ≤ s.freeSlots := by
      have := inv.mem_iff s hsmem
      rw [hsid] at this
      exact this.mp (by rw [hfl]; exact List.mem_cons_self i rest)
    have hfsc1 : 1 ≤ a.freeSlotCount := by
      have h1 := sumFree_mem_le hsmem
      have h2 := inv.fsc_sum
      omega
    have hk : ¬((subOneFree s).freeSlots + 1 = (subOneFree s).size ∧
        (subOneFree s).isStack = false) := by
      rw [subOneFree_freeSlots, subOneFree_size, subOneFree_isStack]
      rcases hd i rest hfl s hsmem hsid with hst | hlt
      · intro hcon
        rw [hst] at hcon
        exact absurd hcon.2 (by decide)
      · intro hcon
        omega
    have hkeep := @freeslot_spec_keep
      { a with slabs := updSlab a.slabs i subOneFree, freeList := if s.freeSlots - 1 = 0 then rest else a.freeList, freeSlotCount := a.freeSlotCount - 1 }
      p.itemAllocate i (subOneFree s)
      (by show findSlab (updSlab a.slabs i subOneFree) i = _
          exact findSlab_updSlab_self subOneFree_id hfind)
      hk
    refine ⟨_, _, _,
      (allocate_one a p).trans (allocslot_spec_cons hfl hfind hfs), ?_⟩
    rw [deallocate, hkeep]
    refine ⟨?_, rfl, ?_⟩
    · show a.freeSlotCount - 1 + 1 = a.freeSlotCount
      omega
    · refine poolExt ?_ ?_ ?_ ?_
      · show p.slabs = p.slabs
        rfl
      · show p.allocatedItems = p.allocatedItems
        rfl
      · show p.freeItems - 1 + 1 = p.freeItems
        omega
      · show p.inuseItems + 1 - 1 = p.inuseItems
        omega

/-- C8 witness: a fresh allocator (stackSize 1, heapSize 2); the head of
the free-slab list is the inline slab. -/
theorem sc_C8_witness :
    ∃ a1 p1 i, allocate (mkAllocator 1 2 pool0).1 (mkAllocator 1 2 pool0).2 1 = some (a1, p1, i) ∧
      (deallocate a1 p1 i).1.freeSlotCount = (mkAllocator 1 2 pool0).1.freeSlotCount ∧
      (deallocate a1 p1 i).1.allocSlotCount = (mkAllocator 1 2 pool0).1.allocSlotCount ∧
      (deallocate a1 p1 i).2 = (mkAllocator 1 2 pool0).2 :=
  sc_C8 ((mkAllocator_inv 1 2 (by decide) pool0).1) (by decide)
    (by
      intro i rest hfl s hs hid
      rcases List.mem_cons.mp hs with rfl | hs
      · exact Or.inl rfl
      · cases hs)

end Slabs
